import Mathlib

/-!
Kinesis Streams to Firehose: routing, batching and bounded retry.

A shallow embedding of `converter/firehose_converter.go` and `put/firehose_put.go`.

Go strings are byte sequences; they are embedded as lists of characters, one
character standing for one byte.  Every separator the program uses (`"\t"`,
`":"`, `","`, `"/"`) is a single byte.  A Go `map[string][]string` is embedded
as an association list with one entry per key; the order of the entries is an
artefact of the embedding and no statement below depends on it.
-/

set_option autoImplicit false

/-- A Go string: a finite sequence of bytes. -/
abbrev Str := List Char

namespace strings

/-- Go `strings.HasPrefix(s, prefix)`:
`len(s) >= len(prefix) && s[:len(prefix)] == prefix`. -/
def HasPrefix (s pre : Str) : Bool :=
  decide (pre.length ≤ s.length) && decide (s.take pre.length = pre)

/-- Go `strings.Index(s, substr)`: the index of the first instance of `substr`
in `s`; `none` stands for the result `-1`. -/
def Index (s substr : Str) : Option Nat :=
  match s with
  | [] => if substr = [] then some 0 else none
  | c :: t =>
    if HasPrefix (c :: t) substr then some 0
    else (Index t substr).map (fun i => i + 1)

/-- Go `strings.Contains(s, substr)`: `Index(s, substr) >= 0`. -/
def Contains (s substr : Str) : Bool :=
  (Index s substr).isSome

/-- Go `strings.Replace(s, old, new, 1)`: `s` itself when `old == new` or `old`
does not occur, otherwise `s[:j] + new + s[j+len(old):]` for the index `j` of
the first instance of `old` (index `0` when `old` is empty). -/
def Replace1 (s old new : Str) : Str :=
  if old = new then s
  else
    match Index s old with
    | none => s
    | some j => s.take j ++ new ++ s.drop (j + old.length)

/-- The loop of Go `strings.genSplit` for a non-empty separator: at most `n`
cuts, each at the first instance of `sep` in what is left of `s`; the loop
stops at the first failed `Index`, and what is left is the last piece. -/
def genSplit (s sep : Str) : Nat → List Str
  | 0 => [s]
  | n + 1 =>
    match Index s sep with
    | none => [s]
    | some m => s.take m :: genSplit (s.drop (m + sep.length)) sep n

/-- Go `strings.Split(s, sep)` for a non-empty `sep`: `genSplit` with as many
cuts as there are instances of `sep`.  The cut budget `len(s)` is never below
that count, and the loop exits at the first failed `Index`. -/
def Split (s sep : Str) : List Str :=
  genSplit s sep s.length

/-- Go `strings.SplitN(s, sep, 2)` for a non-empty `sep`: at most one cut. -/
def SplitN2 (s sep : Str) : List Str :=
  genSplit s sep 1

end strings

/-! ## converter/firehose_converter.go -/

/-- Go `map[string][]string`, one entry per key. -/
abbrev StrMap := List (Str × List Str)

/-- The map read `targetMap[key]` with its `exists` flag. -/
def StrMap.get (m : StrMap) (key : Str) : Option (List Str) :=
  match m with
  | [] => none
  | (k, v) :: rest => if k = key then some v else StrMap.get rest key

/-- The map write `targetMap[key] = value`. -/
def StrMap.set (m : StrMap) (key : Str) (value : List Str) : StrMap :=
  match m with
  | [] => [(key, value)]
  | (k, v) :: rest =>
    if k = key then (k, value) :: rest else (k, v) :: StrMap.set rest key value

/-- The keys of the map. -/
def StrMap.keys (m : StrMap) : List Str :=
  m.map Prod.fst

/-- The struct `FirehoseConverter`. -/
structure FirehoseConverter where
  DeliveryStream : Str
  DefaultStream : Str
  TargetColumn : Str
  RemovePrefix : Str
  AddPrefix : Str
  ReplacePatterns : List (Str × Str)
  deriving DecidableEq, Repr

/-- The function `addMapValue`. -/
def addMapValue (targetMap : StrMap) (key : Str) (value : Str) : StrMap :=
  let targetList :=
    match targetMap.get key with
    | none => []
    | some l => l
  targetMap.set key (targetList ++ [value])

/-- The loop body of `extractValueFromLtsvLine` over the columns that are
left: the first column that splits in two at its first colon and whose first
part is `targetLabel` gives the result. -/
def extractLoop (targetLabel : Str) : List Str → Str
  | [] => []
  | column :: rest =>
    match strings.SplitN2 column [':'] with
    | [lv0, lv1] => if lv0 = targetLabel then lv1 else extractLoop targetLabel rest
    | _ => extractLoop targetLabel rest

/-- The function `extractValueFromLtsvLine`. -/
def extractValueFromLtsvLine (targetLine : Str) (targetLabel : Str) : Str :=
  extractLoop targetLabel (strings.Split targetLine ['\t'])

/-- The method `convertToDeliveryStream`. -/
def FirehoseConverter.convertToDeliveryStream (converter : FirehoseConverter)
    (targetValue : Str) : Str :=
  let result :=
    if strings.HasPrefix targetValue converter.RemovePrefix then
      strings.Replace1 targetValue converter.RemovePrefix []
    else targetValue
  let result :=
    converter.ReplacePatterns.foldl
      (fun acc replacePattern => strings.Replace1 acc replacePattern.1 replacePattern.2)
      result
  converter.AddPrefix ++ result

/-- One iteration of the loop of `ConvertToFirehoseDatas`. -/
def FirehoseConverter.convertStep (converter : FirehoseConverter)
    (result : StrMap) (recordData : Str) : StrMap :=
  let targetValue := extractValueFromLtsvLine recordData converter.TargetColumn
  if targetValue = [] then
    addMapValue result converter.DefaultStream recordData
  else
    let putTarget := converter.convertToDeliveryStream targetValue
    addMapValue result putTarget recordData

/-- The method `ConvertToFirehoseDatas`. -/
def FirehoseConverter.ConvertToFirehoseDatas (converter : FirehoseConverter)
    (recordDatas : List Str) : StrMap :=
  if recordDatas.length = 0 then []
  else if converter.DeliveryStream ≠ [] then
    StrMap.set [] converter.DeliveryStream recordDatas
  else
    recordDatas.foldl converter.convertStep []

/-- The function `CreateReplacePatterns`. -/
def CreateReplacePatterns (replaceConfig : Str) : List (Str × Str) :=
  (strings.Split replaceConfig [',']).foldl
    (fun result replaceSetting =>
      match strings.SplitN2 replaceSetting ['/'] with
      | [s0, s1] => result ++ [(s0, s1)]
      | _ => result)
    []

/-! ## put/firehose_put.go -/

/-- The constant `MaxRetry`. -/
def MaxRetry : Nat := 5

/-- The constant `MaxRecordsPerRequest`. -/
def MaxRecordsPerRequest : Nat := 500

/-- The struct `FirehosePutter`. -/
structure FirehosePutter where
  Region : Str
  DefaultStream : Str
  deriving DecidableEq, Repr

/-- The SDK struct `firehose.Record`. -/
structure Record where
  Data : Str
  deriving DecidableEq, Repr

/-- The SDK struct `firehose.PutRecordBatchInput`.  Every request the program
builds has its `DeliveryStreamName` pointer set, so the name is not optional. -/
structure PutRecordBatchInput where
  DeliveryStreamName : Str
  Records : List Record
  deriving DecidableEq, Repr

/-- The local variables of the loop of `createPutRecordBatchInputs`. -/
structure BatchLoop where
  resultRequests : List PutRecordBatchInput
  resultRecords : List Record
  recordInRequest : Nat
  deriving DecidableEq, Repr

/-- One iteration of the loop of `createPutRecordBatchInputs`, the per-request
maximum taken as a parameter. -/
def createStep (maxRecords : Nat) (deliveryStream : Str) (st : BatchLoop)
    (putData : Str) : BatchLoop :=
  if putData ≠ [] then
    let st :=
      if st.recordInRequest ≥ maxRecords then
        { resultRequests := st.resultRequests ++ [⟨deliveryStream, st.resultRecords⟩]
          resultRecords := []
          recordInRequest := 0 }
      else st
    { resultRequests := st.resultRequests
      resultRecords := st.resultRecords ++ [⟨putData ++ ['\n']⟩]
      recordInRequest := st.recordInRequest + 1 }
  else st

/-- The body of `createPutRecordBatchInputs`, the per-request maximum taken as
a parameter. -/
def createPutRecordBatchInputsWith (maxRecords : Nat) (deliveryStream : Str)
    (putDataSlice : List Str) : List PutRecordBatchInput :=
  let st := putDataSlice.foldl (createStep maxRecords deliveryStream) ⟨[], [], 0⟩
  st.resultRequests ++ [⟨deliveryStream, st.resultRecords⟩]

/-- The function `createPutRecordBatchInputs`. -/
def createPutRecordBatchInputs (deliveryStream : Str) (putDataSlice : List Str) :
    List PutRecordBatchInput :=
  createPutRecordBatchInputsWith MaxRecordsPerRequest deliveryStream putDataSlice

/-- The SDK struct `firehose.PutRecordBatchResponseEntry`: three string
pointers, `none` for a nil pointer. -/
structure PutRecordBatchResponseEntry where
  ErrorCode : Option Str
  ErrorMessage : Option Str
  RecordId : Option Str
  deriving DecidableEq, Repr

/-- The SDK struct `firehose.PutRecordBatchOutput`. -/
structure PutRecordBatchOutput where
  FailedPutCount : Option Int
  RequestResponses : List PutRecordBatchResponseEntry
  deriving DecidableEq, Repr

/-- What `req.Send()` gives: a non-nil error with its text, or a response. -/
inductive SendResult where
  | failure (errorText : Str)
  | success (resp : PutRecordBatchOutput)
  deriving DecidableEq, Repr

/-- How one chain of `putToFirehose` ends: it returns, it panics with a
message, or it stops on a Go run-time fault (nil dereference, index out of
range).  `outOfFuel` is the end of the recursion budget of the embedding. -/
inductive PutEnd where
  | returned
  | panicked (message : Str)
  | fault
  | outOfFuel
  deriving DecidableEq, Repr

/-- The requests sent by one chain of `putToFirehose`, in order, and how the
chain ends. -/
structure PutTrace where
  calls : List PutRecordBatchInput
  finish : PutEnd
  deriving DecidableEq, Repr

/-- The function `judgeRetryCountout`: the panic message when
`MaxRetry <= retryCount`. -/
def judgeRetryCountout (_deliveryStream : Str) (retryCount : Nat) : Except Str Unit :=
  if MaxRetry ≤ retryCount then .error "PutToFirehose count out.".toList else .ok ()

/-- The condition `*response.ErrorCode != "" || *response.ErrorMessage != "" ||
*response.RecordId == ""`, evaluated left to right with short circuit; `none`
when a nil pointer is dereferenced. -/
def isFailedEntry (response : PutRecordBatchResponseEntry) : Option Bool :=
  match response.ErrorCode with
  | none => none
  | some code =>
    if code ≠ [] then some true
    else
      match response.ErrorMessage with
      | none => none
      | some message =>
        if message ≠ [] then some true
        else
          match response.RecordId with
          | none => none
          | some recordId => some (decide (recordId = []))

/-- The loop over `resp.RequestResponses` in `putToFirehose`, from position
`index` on, carrying the delivery stream name and the records of the retry
request; `none` when an iteration faults (nil dereference in the condition or
in the arguments of the log call, or `batchRequest.Records[index]` out of
range). -/
def retryLoop (putter : FirehosePutter) (batchRequest : PutRecordBatchInput) :
    Nat → List PutRecordBatchResponseEntry → Str → List Record → Option (Str × List Record)
  | _, [], retryName, retryRecords => some (retryName, retryRecords)
  | index, response :: rest, retryName, retryRecords =>
    match isFailedEntry response with
    | none => none
    | some false => retryLoop putter batchRequest (index + 1) rest retryName retryRecords
    | some true =>
      match batchRequest.Records[index]?, response.ErrorCode, response.ErrorMessage with
      | some record, some _, some message =>
        let retryName :=
          if strings.Contains message "ResourceNotFound".toList then putter.DefaultStream
          else retryName
        retryLoop putter batchRequest (index + 1) rest retryName (retryRecords ++ [record])
      | _, _, _ => none

/-- Put a request in front of the trace of the calls that follow it. -/
def PutTrace.after (batchRequest : PutRecordBatchInput) (t : PutTrace) : PutTrace :=
  { calls := batchRequest :: t.calls, finish := t.finish }

/-- The method `putToFirehose` with a recursion budget.  `channel i` is the
outcome of the `i`-th call from here on; the pause between attempts and the
log calls are left out, apart from the dereferences in their arguments. -/
def putToFirehoseFuel (putter : FirehosePutter) :
    Nat → (Nat → SendResult) → PutRecordBatchInput → Nat → PutTrace
  | 0, _, _, _ => ⟨[], .outOfFuel⟩
  | fuel + 1, channel, batchRequest, retryCount =>
    match channel 0 with
    | .failure errorText =>
      let renamed : PutRecordBatchInput :=
        if strings.Contains errorText "ResourceNotFound".toList then
          { batchRequest with DeliveryStreamName := putter.DefaultStream }
        else batchRequest
      match judgeRetryCountout renamed.DeliveryStreamName retryCount with
      | .error message => ⟨[batchRequest], .panicked message⟩
      | .ok _ =>
        PutTrace.after batchRequest
          (putToFirehoseFuel putter fuel (fun i => channel (i + 1)) renamed (retryCount + 1))
    | .success resp =>
      match resp.FailedPutCount with
      | none => ⟨[batchRequest], .fault⟩
      | some failedCount =>
        if failedCount ≠ 0 then
          match retryLoop putter batchRequest 0 resp.RequestResponses
              batchRequest.DeliveryStreamName [] with
          | none => ⟨[batchRequest], .fault⟩
          | some (retryName, retryRecords) =>
            match judgeRetryCountout batchRequest.DeliveryStreamName retryCount with
            | .error message => ⟨[batchRequest], .panicked message⟩
            | .ok _ =>
              PutTrace.after batchRequest
                (putToFirehoseFuel putter fuel (fun i => channel (i + 1))
                  ⟨retryName, retryRecords⟩ (retryCount + 1))
        else ⟨[batchRequest], .returned⟩

/-- The method `putToFirehose`: a chain makes at most one call per value of the
retry counter from `retryCount` up to `MaxRetry`. -/
def FirehosePutter.putToFirehose (putter : FirehosePutter) (channel : Nat → SendResult)
    (batchRequest : PutRecordBatchInput) (retryCount : Nat) : PutTrace :=
  putToFirehoseFuel putter (MaxRetry - retryCount + 1) channel batchRequest retryCount

/-! ## Definitions used to state the properties -/

/-- The channel that answers the `i`-th call with the `i`-th outcome of a
list, and with a transport error once the list is used up. -/
def channelOf (outcomes : List SendResult) : Nat → SendResult :=
  fun i => outcomes.getD i (.failure [])

/-- The text of a field before its first colon. -/
def fieldLabel (field : Str) : Str :=
  field.takeWhile (fun ch => decide (ch ≠ ':'))

/-- The text of a field after its first colon. -/
def fieldValue (field : Str) : Str :=
  (field.dropWhile (fun ch => decide (ch ≠ ':'))).drop 1

/-- A field is labelled `label`: it contains a colon and the text before its
first colon is `label`. -/
def labelled (label : Str) (field : Str) : Bool :=
  decide (':' ∈ field) && decide (fieldLabel field = label)

/-- The value with its leading `pre` removed when it starts with `pre`,
unchanged otherwise. -/
def removeLeadingPrefix (pre value : Str) : Str :=
  if pre <+: value then value.drop pre.length else value

/-- The string with the first occurrence of `old` replaced by `new`; unchanged
when `old` does not occur. -/
def replaceFirstOccurrence (s old new : Str) : Str :=
  match s with
  | [] => if old = [] then new else []
  | c :: t =>
    if old <+: c :: t then new ++ (c :: t).drop old.length
    else c :: replaceFirstOccurrence t old new

/-- The destination of a record under label routing: `DefaultStream` when the
extracted value is empty, the converted value otherwise. -/
def FirehoseConverter.dest (converter : FirehoseConverter) (recordData : Str) : Str :=
  if extractValueFromLtsvLine recordData converter.TargetColumn = [] then
    converter.DefaultStream
  else
    converter.convertToDeliveryStream
      (extractValueFromLtsvLine recordData converter.TargetColumn)

/-- A converter with label routing: label `k`, default stream `dflt`, prefix
`app-` removed, `-prod` removed, prefix `fh-` added. -/
def sampleRouting : FirehoseConverter :=
  { DeliveryStream := []
    DefaultStream := "dflt".toList
    TargetColumn := "k".toList
    RemovePrefix := "app-".toList
    AddPrefix := "fh-".toList
    ReplacePatterns := [("-prod".toList, [])] }

/-- Four records: two for `fh-a`, one without the label, one for `fh-b`. -/
def sampleRecords : List Str :=
  ["k:app-a-prod".toList, "x\tkk:1".toList, "k:b".toList, "z:1\tk:app-a-prod".toList]

/-- The payload the batch builder makes of a record: the record followed by a
line separator. -/
def payload (putData : Str) : Record :=
  ⟨putData ++ ['\n']⟩

/-- The records of the input that are not the empty string. -/
def nonEmpty (putDataSlice : List Str) : List Str :=
  putDataSlice.filter (fun r => decide (r ≠ []))

/-- The numbers of records of a list of requests. -/
def sizes (requests : List PutRecordBatchInput) : List Nat :=
  requests.map (fun b => b.Records.length)

/-- The loop invariant of the batch builder after `n` non-empty records, for
a per-request maximum `maxRecords`: the requests closed so far are full, the
counter is the length of the open list of records and is at most the maximum,
and it is positive once a record was taken. -/
def BatchLoop.Counts (maxRecords : Nat) (st : BatchLoop) (n : Nat) : Prop :=
  ∃ k : Nat,
    sizes st.resultRequests = List.replicate k maxRecords ∧
    st.recordInRequest = st.resultRecords.length ∧
    st.recordInRequest ≤ maxRecords ∧
    (0 < n → 0 < st.recordInRequest) ∧
    k * maxRecords + st.recordInRequest = n

/-- A failed attempt: a call error, or a response with a non-zero
`FailedPutCount`. -/
def attemptFails : SendResult → Bool
  | .failure _ => true
  | .success resp =>
    match resp.FailedPutCount with
    | some failedCount => decide (failedCount ≠ 0)
    | none => false

/-- An attempt that reports `FailedPutCount = 0`. -/
def attemptSucceeds : SendResult → Bool
  | .failure _ => false
  | .success resp => decide (resp.FailedPutCount = some 0)

/-- A putter with region `r` and default stream `dflt`. -/
def samplePutter : FirehosePutter :=
  { Region := "r".toList, DefaultStream := "dflt".toList }

/-- A request of two records for the stream `s`. -/
def sampleRequest : PutRecordBatchInput :=
  { DeliveryStreamName := "s".toList, Records := [⟨"a\n".toList⟩, ⟨"b\n".toList⟩] }

/-- A response that reports one failed record of two: the result of the record
that was put carries its record id and no error code or message, the result of
the failed record carries its error code and message and no record id. -/
def partialFailureResponse : PutRecordBatchOutput :=
  { FailedPutCount := some 1
    RequestResponses :=
      [⟨none, none, some "id-0".toList⟩,
       ⟨some "ServiceUnavailableException".toList, some "Slow down.".toList, none⟩] }

/-- A response that flags the second record of two, every field present. -/
def flaggedSecondResponse : PutRecordBatchOutput :=
  { FailedPutCount := some 1
    RequestResponses :=
      [⟨some [], some [], some "id-0".toList⟩,
       ⟨some "ServiceUnavailableException".toList, some "Slow down.".toList, some []⟩] }

/-- Two outcomes: the partial failure `partialFailureResponse`, then a response
with `FailedPutCount = 0`. -/
def partialThenSuccess : Nat → SendResult :=
  channelOf [.success partialFailureResponse, .success ⟨some 0, []⟩]

/-- Five outcomes: a transport error, a partial failure that flags the second
record, a not-found error, a transport error, and a response with
`FailedPutCount = 0`. -/
def fourFailuresThenSuccess : Nat → SendResult :=
  channelOf
    [.failure "timeout".toList,
     .success flaggedSecondResponse,
     .failure "ResourceNotFoundException: no stream".toList,
     .failure "timeout".toList,
     .success ⟨some 0, []⟩]

/-- Two outcomes: a not-found error, then a response with `FailedPutCount = 0`. -/
def notFoundThenSuccess : Nat → SendResult :=
  channelOf [.failure "ResourceNotFoundException: no stream".toList, .success ⟨some 0, []⟩]

/-- Every pointer field of a per-record result is set. -/
def PutRecordBatchResponseEntry.present (e : PutRecordBatchResponseEntry) : Bool :=
  e.ErrorCode.isSome && e.ErrorMessage.isSome && e.RecordId.isSome

/-- A per-record result flags its record: it has a non-empty error code, a
non-empty error message or an empty record id. -/
def flagged (e : PutRecordBatchResponseEntry) : Bool :=
  decide (e.ErrorCode.getD [] ≠ []) || decide (e.ErrorMessage.getD [] ≠ []) ||
    decide (e.RecordId = some [])

/-- The records at the positions whose result flags them, in their order. -/
def flaggedRecords (records : List Record) (results : List PutRecordBatchResponseEntry) :
    List Record :=
  ((records.zip results).filter (fun p => flagged p.2)).map Prod.fst

/-- Some result flags its record with an error message that contains
`ResourceNotFound`. -/
def flagsNotFound (results : List PutRecordBatchResponseEntry) : Bool :=
  results.any (fun e =>
    flagged e && strings.Contains (e.ErrorMessage.getD []) "ResourceNotFound".toList)

/-- Once a request of the list names `d`, every later request names `d`. -/
def staysAt (d : Str) : List PutRecordBatchInput → Prop
  | [] => True
  | c :: rest => (c.DeliveryStreamName = d → ∀ x ∈ rest, x.DeliveryStreamName = d) ∧ staysAt d rest

/-- A request of five records for the stream `s`. -/
def fiveRecordRequest : PutRecordBatchInput :=
  { DeliveryStreamName := "s".toList
    Records := [⟨"a\n".toList⟩, ⟨"b\n".toList⟩, ⟨"c\n".toList⟩, ⟨"d\n".toList⟩, ⟨"e\n".toList⟩] }

/-- A response to five records, every field present, that flags the second
record (error code and message) and the fourth (empty record id). -/
def twoOfFiveResponse : PutRecordBatchOutput :=
  { FailedPutCount := some 2
    RequestResponses :=
      [⟨some [], some [], some "id-0".toList⟩,
       ⟨some "ServiceUnavailableException".toList, some "Slow down.".toList, some []⟩,
       ⟨some [], some [], some "id-2".toList⟩,
       ⟨some [], some [], some []⟩,
       ⟨some [], some [], some "id-4".toList⟩] }

/-- Two outcomes: the response `twoOfFiveResponse`, then a response with
`FailedPutCount = 0`. -/
def twoOfFiveThenSuccess : Nat → SendResult :=
  channelOf [.success twoOfFiveResponse, .success ⟨some 0, []⟩]

/-- A converter with label routing and nothing else configured: label `k`,
every other setting the empty string. -/
def bareRouting : FirehoseConverter :=
  { DeliveryStream := []
    DefaultStream := []
    TargetColumn := "k".toList
    RemovePrefix := []
    AddPrefix := []
    ReplacePatterns := [] }

/-- A converter with label routing to the default stream `dflt` that removes
the prefix `app-` and adds none. -/
def strippingRouting : FirehoseConverter :=
  { DeliveryStream := []
    DefaultStream := "dflt".toList
    TargetColumn := "k".toList
    RemovePrefix := "app-".toList
    AddPrefix := []
    ReplacePatterns := [] }

/-- The text stored by the delivery channel for a list of requests: the data
of all their records, joined in order. -/
def joinedPayloads (requests : List PutRecordBatchInput) : Str :=
  (((requests.map (fun b => b.Records)).flatten).map (fun record => record.Data)).flatten

/-- A response to two records with three results, every field present, the
third result flagging a record that the request does not hold. -/
def threeResultsResponse : PutRecordBatchOutput :=
  { FailedPutCount := some 1
    RequestResponses :=
      [⟨some [], some [], some "id-0".toList⟩,
       ⟨some [], some [], some "id-1".toList⟩,
       ⟨some "InternalFailure".toList, some "failed".toList, some []⟩] }

/-- A converter with label routing to the default stream `dflt` and nothing
stripped, replaced or added. -/
def plainRouting : FirehoseConverter :=
  { DeliveryStream := []
    DefaultStream := "dflt".toList
    TargetColumn := "k".toList
    RemovePrefix := []
    AddPrefix := []
    ReplacePatterns := [] }

/-! ## The string library -/

theorem strings.Index_single_cons (c d : Char) (t : Str) :
    strings.Index (d :: t) [c] =
      if d = c then some 0 else (strings.Index t [c]).map (fun i => i + 1) := by
  simp [strings.Index, strings.HasPrefix]

theorem strings.Index_single (c : Char) (s : Str) :
    strings.Index s [c] =
      if c ∈ s then some (s.takeWhile (fun ch => decide (ch ≠ c))).length else none := by
  induction s with
  | nil => simp [strings.Index]
  | cons d t ih =>
    rw [strings.Index_single_cons, ih]
    by_cases hd : d = c
    · simp [hd]
    · have hd2 : ¬ c = d := fun h => hd h.symm
      by_cases hm : c ∈ t
      · simp [hd, hd2, hm, List.takeWhile_cons]
      · simp [hd, hd2, hm]

theorem take_takeWhile_length (p : Char → Bool) (s : Str) :
    s.take (s.takeWhile p).length = s.takeWhile p := by
  induction s with
  | nil => simp
  | cons d t ih =>
    by_cases hp : p d
    · simp [List.takeWhile_cons, hp, ih]
    · simp [List.takeWhile_cons, hp]

theorem drop_takeWhile_length (p : Char → Bool) (s : Str) :
    s.drop (s.takeWhile p).length = s.dropWhile p := by
  induction s with
  | nil => simp
  | cons d t ih =>
    by_cases hp : p d
    · simp [List.takeWhile_cons, List.dropWhile_cons, hp, ih]
    · simp [List.takeWhile_cons, List.dropWhile_cons, hp]

theorem strings.genSplit_single_succ (c : Char) (s : Str) (n : Nat) :
    strings.genSplit s [c] (n + 1) =
      if c ∈ s then
        s.takeWhile (fun ch => decide (ch ≠ c)) ::
          strings.genSplit ((s.dropWhile (fun ch => decide (ch ≠ c))).drop 1) [c] n
      else [s] := by
  rw [strings.genSplit, strings.Index_single]
  by_cases hm : c ∈ s
  · simp only [hm, if_true, List.length_singleton]
    rw [take_takeWhile_length, ← List.drop_drop, drop_takeWhile_length]
  · simp [hm]

theorem splitOn_of_not_mem (c : Char) (s : Str) (h : c ∉ s) : s.splitOn c = [s] := by
  unfold List.splitOn
  apply List.splitOnP_eq_single
  intro x hx hxc
  have : x = c := by simpa using hxc
  exact h (this ▸ hx)

theorem splitOn_of_mem (c : Char) (s : Str) (h : c ∈ s) :
    s.splitOn c =
      s.takeWhile (fun ch => decide (ch ≠ c)) ::
        ((s.dropWhile (fun ch => decide (ch ≠ c))).drop 1).splitOn c := by
  induction s with
  | nil => simp at h
  | cons d t ih =>
    by_cases hd : d = c
    · subst hd
      simp [List.splitOn, List.splitOnP_cons, List.takeWhile_cons, List.dropWhile_cons]
    · have ht : c ∈ t := by
        rcases List.mem_cons.mp h with h1 | h1
        · exact absurd h1.symm hd
        · exact h1
      have ih2 := ih ht
      simp only [List.splitOn] at ih2 ⊢
      rw [List.splitOnP_cons, ih2]
      simp [hd, List.takeWhile_cons, List.dropWhile_cons]

theorem dropWhile_drop_length_lt (c : Char) (s : Str) (h : c ∈ s) :
    ((s.dropWhile (fun ch => decide (ch ≠ c))).drop 1).length < s.length := by
  induction s with
  | nil => simp at h
  | cons d t ih =>
    by_cases hd : d = c
    · simp [List.dropWhile_cons, hd]
    · have ht : c ∈ t := by
        rcases List.mem_cons.mp h with h1 | h1
        · exact absurd h1.symm hd
        · exact h1
      have := ih ht
      simp only [List.dropWhile_cons, hd, ne_eq, not_false_eq_true, decide_True, if_true,
        List.length_cons] at this ⊢
      omega

theorem strings.genSplit_single_eq_splitOn (c : Char) (n : Nat) :
    ∀ s : Str, s.length ≤ n → strings.genSplit s [c] n = s.splitOn c := by
  induction n with
  | zero =>
    intro s hs
    have : s = [] := List.length_eq_zero.mp (Nat.le_zero.mp hs)
    subst this
    simp [strings.genSplit, List.splitOn_nil]
  | succ n ih =>
    intro s hs
    rw [strings.genSplit_single_succ]
    by_cases hm : c ∈ s
    · rw [if_pos hm, splitOn_of_mem c s hm, ih]
      have := dropWhile_drop_length_lt c s hm
      omega
    · rw [if_neg hm, splitOn_of_not_mem c s hm]

theorem strings.Split_single (c : Char) (s : Str) : strings.Split s [c] = s.splitOn c :=
  strings.genSplit_single_eq_splitOn c s.length s (Nat.le_refl _)

theorem strings.SplitN2_single (c : Char) (s : Str) :
    strings.SplitN2 s [c] =
      if c ∈ s then
        [s.takeWhile (fun ch => decide (ch ≠ c)),
          (s.dropWhile (fun ch => decide (ch ≠ c))).drop 1]
      else [s] := by
  unfold strings.SplitN2
  rw [strings.genSplit_single_succ]
  simp [strings.genSplit]

/-! ## The key extractor -/

theorem extractLoop_eq_find (label : Str) (columns : List Str) :
    extractLoop label columns =
      match columns.find? (labelled label) with
      | some field => fieldValue field
      | none => [] := by
  induction columns with
  | nil => simp [extractLoop]
  | cons column rest ih =>
    rw [extractLoop, strings.SplitN2_single]
    by_cases hm : ':' ∈ column
    · by_cases hl : fieldLabel column = label
      · have hl2 := hl
        simp only [fieldLabel, ne_eq, decide_not] at hl2
        simp [hm, hl2, List.find?_cons, labelled, hl, fieldValue]
      · have hl2 := hl
        simp only [fieldLabel, ne_eq, decide_not] at hl2
        simp [hm, hl2, List.find?_cons, labelled, hl, ih]
    · simp [hm, List.find?_cons, labelled, ih]

theorem extract_eq_find (line label : Str) :
    extractValueFromLtsvLine line label =
      match (line.splitOn '\t').find? (labelled label) with
      | some field => fieldValue field
      | none => [] := by
  unfold extractValueFromLtsvLine
  rw [strings.Split_single, extractLoop_eq_find]

/-- C5: `extractValueFromLtsvLine` is total and returns the text after the
first colon of the first tab-separated field that contains a colon and whose
text before its first colon is the label, and the empty string when there is no
such field; the value keeps its further colons, and a field without a colon
does not match even when it equals the label. -/
theorem extractValueFromLtsvLine_first_labelled_field (line label : Str) :
    (extractValueFromLtsvLine line label =
      match (line.splitOn '\t').find? (labelled label) with
      | some field => fieldValue field
      | none => []) ∧
    (∀ field : Str, labelled label field = true ↔
      (':' ∈ field ∧ field.takeWhile (fun ch => decide (ch ≠ ':')) = label)) ∧
    (∀ field : Str,
      fieldValue field = (field.dropWhile (fun ch => decide (ch ≠ ':'))).drop 1) ∧
    extractValueFromLtsvLine "a:1\tb:2:3\tb:4".toList "b".toList = "2:3".toList ∧
    extractValueFromLtsvLine "host\ta:1".toList "host".toList = [] ∧
    extractValueFromLtsvLine [] [] = [] := by
  refine ⟨extract_eq_find line label, ?_, ?_, by decide, by decide, by decide⟩
  · intro field
    simp [labelled, fieldLabel]
  · intro field
    rfl

/-! ## The route resolver -/

theorem strings.HasPrefix_iff (s pre : Str) : strings.HasPrefix s pre = true ↔ pre <+: s := by
  unfold strings.HasPrefix
  rw [List.prefix_iff_eq_take]
  constructor
  · intro h
    simp only [Bool.and_eq_true, decide_eq_true_eq] at h
    exact h.2.symm
  · intro h
    simp only [Bool.and_eq_true, decide_eq_true_eq]
    refine ⟨?_, h.symm⟩
    have := congrArg List.length h
    rw [List.length_take] at this
    omega

theorem strings.Index_at_start (s pre : Str) (h : pre <+: s) : strings.Index s pre = some 0 := by
  cases s with
  | nil =>
    have : pre = [] := List.prefix_nil.mp h
    simp [strings.Index, this]
  | cons c t =>
    rw [strings.Index, if_pos ((strings.HasPrefix_iff _ _).mpr h)]

theorem replaceFirstOccurrence_eq_index (old new : Str) (s : Str) :
    replaceFirstOccurrence s old new =
      match strings.Index s old with
      | none => s
      | some j => s.take j ++ new ++ s.drop (j + old.length) := by
  induction s with
  | nil =>
    by_cases ho : old = []
    · simp [replaceFirstOccurrence, strings.Index, ho]
    · simp [replaceFirstOccurrence, strings.Index, ho]
  | cons c t ih =>
    rw [replaceFirstOccurrence, strings.Index]
    by_cases hp : old <+: c :: t
    · rw [if_pos hp, if_pos ((strings.HasPrefix_iff _ _).mpr hp)]
      simp
    · have hp2 : ¬ strings.HasPrefix (c :: t) old = true :=
        fun h => hp ((strings.HasPrefix_iff _ _).mp h)
      rw [if_neg hp, if_neg hp2, ih]
      cases hi : strings.Index t old with
      | none => simp
      | some j =>
        have : j + 1 + old.length = (j + old.length) + 1 := by omega
        simp [this]

theorem strings.Index_some_occurs (old : Str) (s : Str) :
    ∀ j, strings.Index s old = some j → old <+: s.drop j := by
  induction s with
  | nil =>
    intro j hj
    by_cases ho : old = []
    · simp [ho]
    · simp [strings.Index, ho] at hj
  | cons c t ih =>
    intro j hj
    rw [strings.Index] at hj
    by_cases hp : strings.HasPrefix (c :: t) old = true
    · rw [if_pos hp] at hj
      have : j = 0 := by simpa using hj.symm
      subst this
      simpa using (strings.HasPrefix_iff _ _).mp hp
    · rw [if_neg hp] at hj
      cases hi : strings.Index t old with
      | none => simp [hi] at hj
      | some i =>
        have : j = i + 1 := by simpa [hi] using hj.symm
        subst this
        simpa using ih i hi

theorem strings.Replace1_eq (s old new : Str) :
    strings.Replace1 s old new = replaceFirstOccurrence s old new := by
  rw [replaceFirstOccurrence_eq_index]
  unfold strings.Replace1
  by_cases hon : old = new
  · rw [if_pos hon]
    subst hon
    cases hi : strings.Index s old with
    | none => rfl
    | some j =>
      obtain ⟨r, hr⟩ := strings.Index_some_occurs old s j hi
      have h1 : s.drop (j + old.length) = r := by
        rw [← List.drop_drop, ← hr]
        simp
      show s = s.take j ++ old ++ s.drop (j + old.length)
      rw [h1, List.append_assoc, hr, List.take_append_drop]
  · rw [if_neg hon]

theorem replaceFirstOccurrence_at_start (s old new : Str) (h : old <+: s) :
    replaceFirstOccurrence s old new = new ++ s.drop old.length := by
  cases s with
  | nil =>
    have : old = [] := List.prefix_nil.mp h
    simp [replaceFirstOccurrence, this]
  | cons c t => rw [replaceFirstOccurrence, if_pos h]

/-- The first occurrence, stated with the text around it: when `a` is the
shortest text before an occurrence of `old`, that occurrence is the one
replaced. -/
theorem replaceFirstOccurrence_first (old new b : Str) (a : Str) :
    (∀ a2 b2 : Str, a ++ old ++ b = a2 ++ old ++ b2 → a.length ≤ a2.length) →
      replaceFirstOccurrence (a ++ old ++ b) old new = a ++ new ++ b := by
  induction a with
  | nil =>
    intro _
    rw [replaceFirstOccurrence_at_start _ _ _ (by simp)]
    simp
  | cons c a ih =>
    intro hmin
    have hnp : ¬ old <+: c :: a ++ old ++ b := by
      rintro ⟨r, hr⟩
      have := hmin [] r (by simpa using hr.symm)
      simp at this
    have hrec : ∀ a2 b2 : Str, a ++ old ++ b = a2 ++ old ++ b2 → a.length ≤ a2.length := by
      intro a2 b2 h2
      have := hmin (c :: a2) b2 (by simp [List.append_assoc] at h2 ⊢; exact h2)
      simpa using this
    show replaceFirstOccurrence (c :: (a ++ old ++ b)) old new = _
    rw [replaceFirstOccurrence, if_neg (by simpa using hnp), ih hrec]
    simp

/-- A string in which `old` does not occur is left as it is. -/
theorem replaceFirstOccurrence_absent (old new : Str) (s : Str) :
    ¬ old <:+: s → replaceFirstOccurrence s old new = s := by
  induction s with
  | nil =>
    intro h
    have ho : old ≠ [] := by
      rintro rfl
      exact h List.nil_infix
    simp [replaceFirstOccurrence, ho]
  | cons c t ih =>
    intro h
    have hnp : ¬ old <+: c :: t := fun hp => h hp.isInfix
    have ht : ¬ old <:+: t := fun hi => h (hi.trans (List.suffix_cons c t).isInfix)
    rw [replaceFirstOccurrence, if_neg hnp, ih ht]

theorem convertToDeliveryStream_eq (c : FirehoseConverter) (v : Str) :
    c.convertToDeliveryStream v =
      c.AddPrefix ++
        c.ReplacePatterns.foldl (fun s p => replaceFirstOccurrence s p.1 p.2)
          (removeLeadingPrefix c.RemovePrefix v) := by
  unfold FirehoseConverter.convertToDeliveryStream removeLeadingPrefix
  have hfun : (fun (acc : Str) (replacePattern : Str × Str) =>
      strings.Replace1 acc replacePattern.1 replacePattern.2) =
      (fun s p => replaceFirstOccurrence s p.1 p.2) := by
    funext acc p
    exact strings.Replace1_eq _ _ _
  simp only [hfun]
  by_cases hp : c.RemovePrefix <+: v
  · rw [if_pos ((strings.HasPrefix_iff _ _).mpr hp), if_pos hp, strings.Replace1_eq,
      replaceFirstOccurrence_at_start _ _ _ hp]
    simp
  · have hp2 : ¬ strings.HasPrefix v c.RemovePrefix = true :=
      fun h => hp ((strings.HasPrefix_iff _ _).mp h)
    rw [if_neg hp2, if_neg hp]

/-- C4: `convertToDeliveryStream` gives `AddPrefix` followed by the value with
its leading `RemovePrefix` removed (only when the value starts with it) and
then, pattern by pattern in list order, the first occurrence of the match
replaced by the replacement; `"app-service-prod"` resolves to `"fh-service"`
with `RemovePrefix = "app-"`, pattern `("-prod", "")` and `AddPrefix = "fh-"`. -/
theorem convertToDeliveryStream_resolves (c : FirehoseConverter) (v : Str) :
    (c.convertToDeliveryStream v =
      c.AddPrefix ++
        c.ReplacePatterns.foldl (fun s p => replaceFirstOccurrence s p.1 p.2)
          (removeLeadingPrefix c.RemovePrefix v)) ∧
    (∀ pre t : Str, removeLeadingPrefix pre (pre ++ t) = t) ∧
    (∀ pre w : Str, ¬ pre <+: w → removeLeadingPrefix pre w = w) ∧
    (∀ a old new b : Str,
      (∀ a2 b2 : Str, a ++ old ++ b = a2 ++ old ++ b2 → a.length ≤ a2.length) →
        replaceFirstOccurrence (a ++ old ++ b) old new = a ++ new ++ b) ∧
    (∀ s old new : Str, ¬ old <:+: s → replaceFirstOccurrence s old new = s) ∧
    (FirehoseConverter.mk [] [] [] "app-".toList "fh-".toList
        [("-prod".toList, [])]).convertToDeliveryStream "app-service-prod".toList =
      "fh-service".toList := by
  refine ⟨convertToDeliveryStream_eq c v, ?_, ?_, ?_, ?_, by decide⟩
  · intro pre t
    simp [removeLeadingPrefix]
  · intro pre w h
    simp [removeLeadingPrefix, h]
  · intro a old new b h
    exact replaceFirstOccurrence_first old new b a h
  · intro s old new h
    exact replaceFirstOccurrence_absent old new s h

/-- The resolver at a value in which `RemovePrefix` occurs only later: the
value keeps it. -/
theorem convertToDeliveryStream_resolves_witness :
    (FirehoseConverter.mk [] [] [] "app-".toList "fh-".toList
        [("-prod".toList, [])]).convertToDeliveryStream "my-app-x".toList =
      "fh-".toList ++
        [("-prod".toList, ([] : Str))].foldl (fun s p => replaceFirstOccurrence s p.1 p.2)
          (removeLeadingPrefix "app-".toList "my-app-x".toList) ∧
    removeLeadingPrefix "app-".toList "my-app-x".toList = "my-app-x".toList :=
  ⟨(convertToDeliveryStream_resolves
      (FirehoseConverter.mk [] [] [] "app-".toList "fh-".toList [("-prod".toList, [])])
      "my-app-x".toList).1,
    (convertToDeliveryStream_resolves
      (FirehoseConverter.mk [] [] [] "app-".toList "fh-".toList [("-prod".toList, [])])
      "my-app-x".toList).2.2.1 "app-".toList "my-app-x".toList (by decide)⟩

/-! ## The router -/

theorem StrMap.get_set (m : StrMap) (key : Str) (value : List Str) (k : Str) :
    (m.set key value).get k = if key = k then some value else m.get k := by
  induction m with
  | nil => simp [StrMap.set, StrMap.get]
  | cons e rest ih =>
    obtain ⟨k0, v0⟩ := e
    by_cases h0 : k0 = key
    · subst h0
      by_cases hk : k0 = k
      · simp [StrMap.set, StrMap.get, hk]
      · simp [StrMap.set, StrMap.get, hk]
    · by_cases hk : k0 = k
      · have : ¬ key = k := fun h => h0 (hk.trans h.symm)
        subst hk
        simp [StrMap.set, StrMap.get, h0, this]
      · simp [StrMap.set, StrMap.get, h0, hk, ih]

theorem StrMap.keys_set (m : StrMap) (key : Str) (value : List Str) :
    (m.set key value).keys = if key ∈ m.keys then m.keys else m.keys ++ [key] := by
  induction m with
  | nil => simp [StrMap.set, StrMap.keys]
  | cons e rest ih =>
    obtain ⟨k0, v0⟩ := e
    simp only [StrMap.keys] at ih ⊢
    by_cases h0 : k0 = key
    · simp [StrMap.set, h0]
    · have h1 : ¬ key = k0 := fun h => h0 h.symm
      by_cases hm : key ∈ List.map Prod.fst rest
      · rw [if_pos hm] at ih
        simp [StrMap.set, h0, h1, ih, hm]
      · rw [if_neg hm] at ih
        simp only [StrMap.set, h0, if_false, List.map_cons, ih, List.mem_cons, h1, hm, or_self,
          List.cons_append]

theorem StrMap.mem_keys_iff (m : StrMap) (k : Str) : k ∈ m.keys ↔ (m.get k).isSome = true := by
  induction m with
  | nil => simp [StrMap.keys, StrMap.get]
  | cons e rest ih =>
    obtain ⟨k0, v0⟩ := e
    simp only [StrMap.keys] at ih
    by_cases hk : k0 = k
    · simp [StrMap.keys, StrMap.get, hk]
    · have hk2 : ¬ k = k0 := fun h => hk h.symm
      simp [StrMap.keys, StrMap.get, hk, hk2, ih]

theorem StrMap.nodup_keys_set (m : StrMap) (key : Str) (value : List Str)
    (h : m.keys.Nodup) : (m.set key value).keys.Nodup := by
  rw [StrMap.keys_set]
  by_cases hm : key ∈ m.keys
  · rw [if_pos hm]
    exact h
  · rw [if_neg hm]
    exact List.Nodup.append h (List.nodup_singleton key) (by simpa using hm)

theorem get_addMapValue (m : StrMap) (key value k : Str) :
    (addMapValue m key value).get k =
      if key = k then some ((m.get key).getD [] ++ [value]) else m.get k := by
  unfold addMapValue
  rw [StrMap.get_set]
  cases hg : m.get key <;> simp

theorem nodup_keys_addMapValue (m : StrMap) (key value : Str) (h : m.keys.Nodup) :
    (addMapValue m key value).keys.Nodup :=
  StrMap.nodup_keys_set m key _ h

theorem convertStep_eq (c : FirehoseConverter) (m : StrMap) (r : Str) :
    c.convertStep m r = addMapValue m (c.dest r) r := by
  unfold FirehoseConverter.convertStep FirehoseConverter.dest
  by_cases h : extractValueFromLtsvLine r c.TargetColumn = []
  · simp [h]
  · simp [h]

theorem foldl_convertStep_get (c : FirehoseConverter) (k : Str) (rs : List Str) :
    ∀ m : StrMap, (rs.foldl c.convertStep m).get k =
      if rs.filter (fun r => decide (c.dest r = k)) = [] then m.get k
      else some ((m.get k).getD [] ++ rs.filter (fun r => decide (c.dest r = k))) := by
  induction rs with
  | nil => intro m; simp
  | cons r rs ih =>
    intro m
    rw [List.foldl_cons, ih, convertStep_eq, get_addMapValue]
    by_cases hd : c.dest r = k
    · subst hd
      by_cases hf : rs.filter (fun x => decide (c.dest x = c.dest r)) = []
      · simp [List.filter_cons, hf]
      · simp [List.filter_cons, hf]
    · simp [List.filter_cons, hd]

theorem foldl_convertStep_nodup (c : FirehoseConverter) (rs : List Str) :
    ∀ m : StrMap, m.keys.Nodup → (rs.foldl c.convertStep m).keys.Nodup := by
  induction rs with
  | nil => intro m h; exact h
  | cons r rs ih =>
    intro m h
    rw [List.foldl_cons]
    apply ih
    rw [convertStep_eq]
    exact nodup_keys_addMapValue m _ _ h

theorem ConvertToFirehoseDatas_of_label (c : FirehoseConverter) (rs : List Str)
    (h : c.DeliveryStream = []) :
    c.ConvertToFirehoseDatas rs = rs.foldl c.convertStep [] := by
  unfold FirehoseConverter.ConvertToFirehoseDatas
  cases rs with
  | nil => simp
  | cons r rs => simp [h]

theorem ConvertToFirehoseDatas_get (c : FirehoseConverter) (rs : List Str)
    (h : c.DeliveryStream = []) (k : Str) :
    (c.ConvertToFirehoseDatas rs).get k =
      if rs.filter (fun r => decide (c.dest r = k)) = [] then none
      else some (rs.filter (fun r => decide (c.dest r = k))) := by
  rw [ConvertToFirehoseDatas_of_label c rs h, foldl_convertStep_get]
  simp [StrMap.get]

theorem filter_dest_ne_nil_iff (c : FirehoseConverter) (rs : List Str) (k : Str) :
    rs.filter (fun r => decide (c.dest r = k)) ≠ [] ↔ ∃ r ∈ rs, c.dest r = k := by
  rw [Ne, List.filter_eq_nil_iff]
  simp

/-- C1: with a non-empty `DeliveryStream` and a non-empty record list, the map
returned by `ConvertToFirehoseDatas` has the single key `DeliveryStream`, and
its bucket is the input list itself, whatever the records and the other
settings are. -/
theorem ConvertToFirehoseDatas_fixed_stream (c : FirehoseConverter) (rs : List Str)
    (hrs : rs ≠ []) (hds : c.DeliveryStream ≠ []) :
    c.ConvertToFirehoseDatas rs = [(c.DeliveryStream, rs)] ∧
    (c.ConvertToFirehoseDatas rs).keys = [c.DeliveryStream] ∧
    (c.ConvertToFirehoseDatas rs).get c.DeliveryStream = some rs := by
  have h : c.ConvertToFirehoseDatas rs = [(c.DeliveryStream, rs)] := by
    unfold FirehoseConverter.ConvertToFirehoseDatas
    cases rs with
    | nil => exact absurd rfl hrs
    | cons r rs => simp [hds, StrMap.set]
  rw [h]
  simp [StrMap.keys, StrMap.get]

/-- The fixed destination applied to three records, one of them empty, with
label routing configured as well. -/
theorem ConvertToFirehoseDatas_fixed_stream_witness :
    (FirehoseConverter.mk "fixed".toList "dflt".toList "k".toList [] [] []).ConvertToFirehoseDatas
        ["k:a".toList, [], "k:b".toList] =
      [("fixed".toList, ["k:a".toList, [], "k:b".toList])] ∧
    ((FirehoseConverter.mk "fixed".toList "dflt".toList "k".toList [] [] []).ConvertToFirehoseDatas
        ["k:a".toList, [], "k:b".toList]).keys = ["fixed".toList] ∧
    ((FirehoseConverter.mk "fixed".toList "dflt".toList "k".toList [] [] []).ConvertToFirehoseDatas
        ["k:a".toList, [], "k:b".toList]).get "fixed".toList =
      some ["k:a".toList, [], "k:b".toList] :=
  ConvertToFirehoseDatas_fixed_stream
    (FirehoseConverter.mk "fixed".toList "dflt".toList "k".toList [] [] [])
    ["k:a".toList, [], "k:b".toList] (by decide) (by decide)

/-- C2: with `DeliveryStream` empty, the keys of the map returned by
`ConvertToFirehoseDatas` are the destinations `dest r` of the records, each
once, and the bucket at a key is the sub-list of the input of the records with
that destination, in input order; so no bucket is empty and a key that is no
destination has no bucket. -/
theorem ConvertToFirehoseDatas_buckets (c : FirehoseConverter) (rs : List Str)
    (h : c.DeliveryStream = []) :
    (c.ConvertToFirehoseDatas rs).keys.Nodup ∧
    ∀ k : Str,
      (k ∈ (c.ConvertToFirehoseDatas rs).keys ↔ ∃ r ∈ rs, c.dest r = k) ∧
      (k ∈ (c.ConvertToFirehoseDatas rs).keys →
        (c.ConvertToFirehoseDatas rs).get k =
            some (rs.filter (fun r => decide (c.dest r = k))) ∧
          rs.filter (fun r => decide (c.dest r = k)) ≠ []) ∧
      (k ∉ (c.ConvertToFirehoseDatas rs).keys → (c.ConvertToFirehoseDatas rs).get k = none) := by
  have hkey : ∀ k : Str,
      k ∈ (c.ConvertToFirehoseDatas rs).keys ↔
        rs.filter (fun r => decide (c.dest r = k)) ≠ [] := by
    intro k
    rw [StrMap.mem_keys_iff, ConvertToFirehoseDatas_get c rs h]
    by_cases hf : rs.filter (fun r => decide (c.dest r = k)) = []
    · simp [hf]
    · simp [hf]
  refine ⟨?_, ?_⟩
  · rw [ConvertToFirehoseDatas_of_label c rs h]
    exact foldl_convertStep_nodup c rs [] (by simp [StrMap.keys])
  · intro k
    refine ⟨?_, ?_, ?_⟩
    · rw [hkey, filter_dest_ne_nil_iff]
    · intro hk
      have hf := (hkey k).mp hk
      rw [ConvertToFirehoseDatas_get c rs h, if_neg hf]
      exact ⟨rfl, hf⟩
    · intro hk
      have hf : rs.filter (fun r => decide (c.dest r = k)) = [] := by
        by_contra hne
        exact hk ((hkey k).mpr hne)
      rw [ConvertToFirehoseDatas_get c rs h, if_pos hf]

/-- Label routing of the sample records: the bucket of `fh-a` holds the first
and the last record, in that order. -/
theorem ConvertToFirehoseDatas_buckets_witness :
    sampleRouting.ConvertToFirehoseDatas sampleRecords =
      [("fh-a".toList, ["k:app-a-prod".toList, "z:1\tk:app-a-prod".toList]),
       ("dflt".toList, ["x\tkk:1".toList]),
       ("fh-b".toList, ["k:b".toList])] ∧
    ("fh-a".toList ∈ (sampleRouting.ConvertToFirehoseDatas sampleRecords).keys ↔
      ∃ r ∈ sampleRecords, sampleRouting.dest r = "fh-a".toList) ∧
    ("fh-a".toList ∈ (sampleRouting.ConvertToFirehoseDatas sampleRecords).keys →
      (sampleRouting.ConvertToFirehoseDatas sampleRecords).get "fh-a".toList =
          some (sampleRecords.filter (fun r => decide (sampleRouting.dest r = "fh-a".toList))) ∧
        sampleRecords.filter (fun r => decide (sampleRouting.dest r = "fh-a".toList)) ≠ []) ∧
    ("fh-a".toList ∉ (sampleRouting.ConvertToFirehoseDatas sampleRecords).keys →
      (sampleRouting.ConvertToFirehoseDatas sampleRecords).get "fh-a".toList = none) :=
  ⟨by decide, (ConvertToFirehoseDatas_buckets sampleRouting sampleRecords rfl).2 "fh-a".toList⟩

/-- C3: with `DeliveryStream` empty, a record of the input that has no
tab-separated field labelled `TargetColumn`, or whose first such field has an
empty value, is an element of the bucket of `DefaultStream`. -/
theorem default_bucket_of_unlabelled (c : FirehoseConverter) (rs : List Str) (r : Str)
    (h : c.DeliveryStream = []) (hr : r ∈ rs)
    (hlab : ∀ field : Str,
      (r.splitOn '\t').find? (labelled c.TargetColumn) = some field → fieldValue field = []) :
    ∃ bucket : List Str,
      (c.ConvertToFirehoseDatas rs).get c.DefaultStream = some bucket ∧ r ∈ bucket := by
  have hex : extractValueFromLtsvLine r c.TargetColumn = [] := by
    rw [extract_eq_find]
    cases hf : (r.splitOn '\t').find? (labelled c.TargetColumn) with
    | none => rfl
    | some field => exact hlab field hf
  have hd : c.dest r = c.DefaultStream := by
    unfold FirehoseConverter.dest
    rw [if_pos hex]
  have hmem : r ∈ rs.filter (fun x => decide (c.dest x = c.DefaultStream)) := by
    rw [List.mem_filter]
    exact ⟨hr, by simpa using hd⟩
  refine ⟨rs.filter (fun x => decide (c.dest x = c.DefaultStream)), ?_, hmem⟩
  rw [ConvertToFirehoseDatas_get c rs h, if_neg (List.ne_nil_of_mem hmem)]

/-- The second sample record has no field labelled `k` (its fields are `x` and
`kk:1`) and is in the bucket of `dflt`. -/
theorem default_bucket_of_unlabelled_witness :
    (∀ field : Str,
      ("x\tkk:1".toList.splitOn '\t').find? (labelled sampleRouting.TargetColumn) = some field →
        fieldValue field = []) ∧
    ∃ bucket : List Str,
      (sampleRouting.ConvertToFirehoseDatas sampleRecords).get sampleRouting.DefaultStream =
        some bucket ∧ "x\tkk:1".toList ∈ bucket :=
  ⟨by decide,
    default_bucket_of_unlabelled sampleRouting sampleRecords "x\tkk:1".toList rfl (by decide)
      (by decide)⟩

/-! ## The batch builder -/

theorem createStep_empty (M : Nat) (d : Str) (st : BatchLoop) : createStep M d st [] = st := by
  simp [createStep]

theorem foldl_createStep_nonEmpty (M : Nat) (d : Str) (rs : List Str) :
    ∀ st : BatchLoop,
      rs.foldl (createStep M d) st = (nonEmpty rs).foldl (createStep M d) st := by
  induction rs with
  | nil => intro st; rfl
  | cons r rs ih =>
    intro st
    by_cases hr : r = []
    · subst hr
      simp only [List.foldl_cons, createStep_empty, nonEmpty, List.filter_cons]
      simpa [nonEmpty] using ih st
    · have : nonEmpty (r :: rs) = r :: nonEmpty rs := by simp [nonEmpty, List.filter_cons, hr]
      rw [this, List.foldl_cons, List.foldl_cons, ih]

theorem createStep_payloads (M : Nat) (d : Str) (st : BatchLoop) (r : Str) (hr : r ≠ []) :
    ((createStep M d st r).resultRequests.map (fun b => b.Records)).flatten ++
        (createStep M d st r).resultRecords =
      (st.resultRequests.map (fun b => b.Records)).flatten ++ st.resultRecords ++ [payload r] := by
  unfold createStep payload
  by_cases hc : st.recordInRequest ≥ M
  · simp [hr, hc]
  · simp [hr, hc]

theorem foldl_createStep_payloads (M : Nat) (d : Str) (rs : List Str) :
    ∀ st : BatchLoop,
      ((rs.foldl (createStep M d) st).resultRequests.map (fun b => b.Records)).flatten ++
          (rs.foldl (createStep M d) st).resultRecords =
        (st.resultRequests.map (fun b => b.Records)).flatten ++ st.resultRecords ++
          (nonEmpty rs).map payload := by
  induction rs with
  | nil => intro st; simp [nonEmpty]
  | cons r rs ih =>
    intro st
    rw [List.foldl_cons, ih]
    by_cases hr : r = []
    · subst hr
      simp [createStep_empty, nonEmpty]
    · rw [createStep_payloads M d st r hr]
      simp [nonEmpty, List.filter_cons, hr]

theorem createStep_names (M : Nat) (d : Str) (st : BatchLoop) (r : Str)
    (h : ∀ b ∈ st.resultRequests, b.DeliveryStreamName = d) :
    ∀ b ∈ (createStep M d st r).resultRequests, b.DeliveryStreamName = d := by
  unfold createStep
  by_cases hr : r = []
  · simpa [hr] using h
  · by_cases hc : st.recordInRequest ≥ M
    · intro b hb
      simp only [hr, ne_eq, not_false_eq_true, if_true, hc, List.mem_append,
        List.mem_singleton] at hb
      rcases hb with hb | hb
      · exact h b hb
      · rw [hb]
    · simpa [hr, hc] using h

theorem foldl_createStep_names (M : Nat) (d : Str) (rs : List Str) :
    ∀ st : BatchLoop, (∀ b ∈ st.resultRequests, b.DeliveryStreamName = d) →
      ∀ b ∈ (rs.foldl (createStep M d) st).resultRequests, b.DeliveryStreamName = d := by
  induction rs with
  | nil => intro st h; exact h
  | cons r rs ih =>
    intro st h
    rw [List.foldl_cons]
    exact ih _ (createStep_names M d st r h)

theorem createStep_counts (M : Nat) (hM : 1 ≤ M) (d : Str) (st : BatchLoop) (n : Nat)
    (r : Str) (hr : r ≠ []) (h : st.Counts M n) : (createStep M d st r).Counts M (n + 1) := by
  obtain ⟨k, h1, h2, h3, h4, h5⟩ := h
  unfold createStep
  by_cases hc : st.recordInRequest ≥ M
  · refine ⟨k + 1, ?_, ?_, ?_, ?_, ?_⟩
    · have hlen : st.resultRecords.length = M := by omega
      simp only [hr, ne_eq, not_false_eq_true, if_true, hc, sizes, List.map_append,
        List.map_cons, List.map_nil, hlen]
      rw [show List.map (fun b => b.Records.length) st.resultRequests = List.replicate k M from h1]
      rw [List.replicate_succ', List.append_cancel_left_eq]
    · simp [hr, hc]
    · simp [hr, hc]
      exact hM
    · intro _
      simp [hr, hc]
    · simp only [hr, ne_eq, not_false_eq_true, if_true, hc]
      have : st.recordInRequest = M := by omega
      rw [Nat.add_mul]
      omega
  · refine ⟨k, ?_, ?_, ?_, ?_, ?_⟩
    · simpa [hr, hc] using h1
    · simp only [hr, ne_eq, not_false_eq_true, if_true, hc, if_false, List.length_append,
        List.length_singleton]
      omega
    · simp only [hr, ne_eq, not_false_eq_true, if_true, hc, if_false]
      omega
    · intro _
      simp [hr, hc]
    · simp only [hr, ne_eq, not_false_eq_true, if_true, hc, if_false]
      omega

theorem foldl_createStep_counts (M : Nat) (hM : 1 ≤ M) (d : Str) (rs : List Str) :
    ∀ (st : BatchLoop) (n : Nat), st.Counts M n →
      (rs.foldl (createStep M d) st).Counts M (n + (nonEmpty rs).length) := by
  induction rs with
  | nil => intro st n h; simpa [nonEmpty] using h
  | cons r rs ih =>
    intro st n h
    rw [List.foldl_cons]
    by_cases hr : r = []
    · subst hr
      rw [createStep_empty]
      simpa [nonEmpty] using ih st n h
    · have h2 := ih _ _ (createStep_counts M hM d st n r hr h)
      have : nonEmpty (r :: rs) = r :: nonEmpty rs := by simp [nonEmpty, List.filter_cons, hr]
      rw [this, List.length_cons]
      have e : n + 1 + (nonEmpty rs).length = n + ((nonEmpty rs).length + 1) := by omega
      rw [← e]
      exact h2

theorem counts_init (M : Nat) : BatchLoop.Counts M ⟨[], [], 0⟩ 0 :=
  ⟨0, by simp [sizes], rfl, Nat.zero_le _, fun h => absurd h (Nat.lt_irrefl 0), by simp⟩

theorem createWith_sizes (M : Nat) (hM : 1 ≤ M) (d : Str) (rs : List Str) :
    ∃ k cnt : Nat,
      sizes (createPutRecordBatchInputsWith M d rs) = List.replicate k M ++ [cnt] ∧
      cnt ≤ M ∧ (0 < (nonEmpty rs).length → 0 < cnt) ∧ k * M + cnt = (nonEmpty rs).length := by
  have h := foldl_createStep_counts M hM d rs ⟨[], [], 0⟩ 0 (counts_init M)
  obtain ⟨k, h1, h2, h3, h4, h5⟩ := h
  refine ⟨k, (rs.foldl (createStep M d) ⟨[], [], 0⟩).recordInRequest, ?_, h3, ?_, ?_⟩
  · unfold createPutRecordBatchInputsWith
    simp only [sizes, List.map_append, List.map_cons, List.map_nil]
    rw [show List.map (fun b => b.Records.length)
        (rs.foldl (createStep M d) ⟨[], [], 0⟩).resultRequests = List.replicate k M from h1, h2]
  · intro hn
    exact h4 (by omega)
  · omega

theorem createPutRecordBatchInputs_eq_with (d : Str) (rs : List Str) :
    createPutRecordBatchInputs d rs = createPutRecordBatchInputsWith MaxRecordsPerRequest d rs :=
  rfl

theorem createWith_nonEmpty (M : Nat) (d : Str) (rs : List Str) :
    createPutRecordBatchInputsWith M d rs = createPutRecordBatchInputsWith M d (nonEmpty rs) := by
  unfold createPutRecordBatchInputsWith
  have h2 : nonEmpty (nonEmpty rs) = nonEmpty rs := by simp [nonEmpty]
  rw [foldl_createStep_nonEmpty M d rs, foldl_createStep_nonEmpty M d (nonEmpty rs), h2]

theorem createWith_payloads (M : Nat) (d : Str) (rs : List Str) :
    ((createPutRecordBatchInputsWith M d rs).map (fun b => b.Records)).flatten =
      (nonEmpty rs).map payload := by
  have h := foldl_createStep_payloads M d rs ⟨[], [], 0⟩
  unfold createPutRecordBatchInputsWith
  simp only [List.map_append, List.flatten_append, List.map_cons, List.map_nil,
    List.flatten_cons, List.flatten_nil, List.append_nil]
  simpa using h

theorem createWith_names (M : Nat) (d : Str) (rs : List Str) :
    ∀ b ∈ createPutRecordBatchInputsWith M d rs, b.DeliveryStreamName = d := by
  intro b hb
  unfold createPutRecordBatchInputsWith at hb
  rcases List.mem_append.mp hb with hb | hb
  · exact foldl_createStep_names M d rs ⟨[], [], 0⟩ (by simp) b hb
  · rw [List.mem_singleton.mp hb]

/-- C6: every batch returned by `createPutRecordBatchInputs` holds at most
`MaxRecordsPerRequest`, that is 500, records. -/
theorem createPutRecordBatchInputs_at_most_max (d : Str) (rs : List Str) :
    MaxRecordsPerRequest = 500 ∧
    ∀ b ∈ createPutRecordBatchInputs d rs, b.Records.length ≤ MaxRecordsPerRequest := by
  refine ⟨rfl, ?_⟩
  intro b hb
  rw [createPutRecordBatchInputs_eq_with] at hb
  obtain ⟨k, cnt, hs, hc, _, _⟩ :=
    createWith_sizes MaxRecordsPerRequest (by decide) d rs
  have hmem : b.Records.length ∈ sizes (createPutRecordBatchInputsWith MaxRecordsPerRequest d rs) :=
    List.mem_map.mpr ⟨b, hb, rfl⟩
  rw [hs] at hmem
  rcases List.mem_append.mp hmem with hm | hm
  · rw [(List.mem_replicate.mp hm).2]
  · rw [List.mem_singleton.mp hm]
    exact hc

/-- The single batch built of two records and an empty string holds two
records, below the maximum. -/
theorem createPutRecordBatchInputs_at_most_max_witness :
    (⟨"s".toList, [⟨"a\n".toList⟩, ⟨"b\n".toList⟩]⟩ : PutRecordBatchInput) ∈
        createPutRecordBatchInputs "s".toList ["a".toList, [], "b".toList] ∧
    (⟨"s".toList, [⟨"a\n".toList⟩, ⟨"b\n".toList⟩]⟩ : PutRecordBatchInput).Records.length ≤
      MaxRecordsPerRequest :=
  ⟨by decide,
    (createPutRecordBatchInputs_at_most_max "s".toList ["a".toList, [], "b".toList]).2
      ⟨"s".toList, [⟨"a\n".toList⟩, ⟨"b\n".toList⟩]⟩ (by decide)⟩

/-- C7: the record payloads of the batches of `createPutRecordBatchInputs`, in
batch order, are the non-empty records of the input, each followed by a line
separator, in input order; every batch names the destination; and the empty
strings of the input change nothing in the result. -/
theorem createPutRecordBatchInputs_payloads (d : Str) (rs : List Str) :
    ((createPutRecordBatchInputs d rs).map (fun b => b.Records)).flatten =
      (rs.filter (fun r => decide (r ≠ []))).map (fun r => Record.mk (r ++ ['\n'])) ∧
    (∀ b ∈ createPutRecordBatchInputs d rs, b.DeliveryStreamName = d) ∧
    createPutRecordBatchInputs d rs =
      createPutRecordBatchInputs d (rs.filter (fun r => decide (r ≠ []))) :=
  ⟨createWith_payloads MaxRecordsPerRequest d rs,
    createWith_names MaxRecordsPerRequest d rs,
    createWith_nonEmpty MaxRecordsPerRequest d rs⟩

/-- The batch built of two records around an empty string: its payloads, its
destination, and the same batch without the empty string. -/
theorem createPutRecordBatchInputs_payloads_witness :
    ((createPutRecordBatchInputs "s".toList ["a".toList, [], "b".toList]).map
        (fun b => b.Records)).flatten = [⟨"a\n".toList⟩, ⟨"b\n".toList⟩] ∧
    (⟨"s".toList, [⟨"a\n".toList⟩, ⟨"b\n".toList⟩]⟩ : PutRecordBatchInput).DeliveryStreamName =
      "s".toList ∧
    createPutRecordBatchInputs "s".toList ["a".toList, [], "b".toList] =
      createPutRecordBatchInputs "s".toList ["a".toList, "b".toList] :=
  ⟨(createPutRecordBatchInputs_payloads "s".toList ["a".toList, [], "b".toList]).1,
    (createPutRecordBatchInputs_payloads "s".toList ["a".toList, [], "b".toList]).2.1
      ⟨"s".toList, [⟨"a\n".toList⟩, ⟨"b\n".toList⟩]⟩ (by decide),
    (createPutRecordBatchInputs_payloads "s".toList ["a".toList, [], "b".toList]).2.2⟩

/-- C8: with a per-batch maximum `M ≥ 1` (500 in `createPutRecordBatchInputs`)
and `n ≥ 1` non-empty records, the builder returns `ceil(n / M)` batches, every
batch but the last of `M` records and the last of `n − M·(ceil(n/M) − 1)`
records, a number from 1 to `M`. -/
theorem createPutRecordBatchInputs_batch_count (M : Nat) (d : Str) (rs : List Str)
    (hM : 1 ≤ M) (hn : 1 ≤ (nonEmpty rs).length) :
    (createPutRecordBatchInputsWith M d rs).length = ((nonEmpty rs).length + M - 1) / M ∧
    sizes (createPutRecordBatchInputsWith M d rs) =
      List.replicate (((nonEmpty rs).length + M - 1) / M - 1) M ++
        [(nonEmpty rs).length - M * (((nonEmpty rs).length + M - 1) / M - 1)] ∧
    1 ≤ (nonEmpty rs).length - M * (((nonEmpty rs).length + M - 1) / M - 1) ∧
    (nonEmpty rs).length - M * (((nonEmpty rs).length + M - 1) / M - 1) ≤ M ∧
    M * (((nonEmpty rs).length + M - 1) / M - 1) < (nonEmpty rs).length ∧
    (nonEmpty rs).length ≤ M * (((nonEmpty rs).length + M - 1) / M) ∧
    createPutRecordBatchInputs d rs = createPutRecordBatchInputsWith 500 d rs := by
  obtain ⟨k, cnt, hs, hc, hpos, hsum⟩ := createWith_sizes M hM d rs
  have hcnt : 0 < cnt := hpos (by omega)
  have hq : ((nonEmpty rs).length + M - 1) / M = k + 1 := by
    apply Nat.div_eq_of_lt_le
    · rw [Nat.add_mul]
      omega
    · rw [Nat.add_mul, Nat.add_mul]
      omega
  have hk : M * k = k * M := Nat.mul_comm M k
  have hk1 : M * (k + 1) = k * M + M := by rw [Nat.mul_add, hk, Nat.mul_one]
  have hlast : (nonEmpty rs).length - M * k = cnt := by omega
  rw [hq]
  simp only [Nat.add_sub_cancel]
  rw [hlast]
  refine ⟨?_, hs, hcnt, hc, by omega, by omega, rfl⟩
  have := congrArg List.length hs
  simpa [sizes] using this

/-- The spec's example: maximum 2 and five non-empty records (with two empty
strings in between) give batches of sizes 2, 2 and 1. -/
theorem createPutRecordBatchInputs_batch_count_witness :
    sizes (createPutRecordBatchInputsWith 2 "s".toList
      ["a".toList, [], "b".toList, "c".toList, "d".toList, [], "e".toList]) = [2, 2, 1] ∧
    (createPutRecordBatchInputsWith 2 "s".toList
      ["a".toList, [], "b".toList, "c".toList, "d".toList, [], "e".toList]).length =
        ((nonEmpty ["a".toList, [], "b".toList, "c".toList, "d".toList, [], "e".toList]).length
          + 2 - 1) / 2 :=
  ⟨by decide,
    (createPutRecordBatchInputs_batch_count 2 "s".toList
      ["a".toList, [], "b".toList, "c".toList, "d".toList, [], "e".toList]
      (by decide) (by decide)).1⟩

/-- C9: for a record list that is empty or holds only empty strings,
`createPutRecordBatchInputs` returns exactly one batch, addressed to the
destination, with no record. -/
theorem createPutRecordBatchInputs_all_empty (d : Str) (rs : List Str)
    (h : ∀ r ∈ rs, r = []) :
    createPutRecordBatchInputs d rs = [⟨d, []⟩] := by
  have hne : nonEmpty rs = [] := by
    unfold nonEmpty
    rw [List.filter_eq_nil_iff]
    intro r hr
    simp [h r hr]
  rw [createPutRecordBatchInputs_eq_with, createWith_nonEmpty, hne]
  rfl

/-- Two empty strings give the one empty batch. -/
theorem createPutRecordBatchInputs_all_empty_witness :
    (∀ r ∈ ([[], []] : List Str), r = []) ∧
    createPutRecordBatchInputs "s".toList [[], []] = [⟨"s".toList, []⟩] :=
  ⟨by decide, createPutRecordBatchInputs_all_empty "s".toList [[], []] (by decide)⟩

/-! ## The retry chain -/

theorem putToFirehoseFuel_failure (putter : FirehosePutter) (fuel : Nat)
    (channel : Nat → SendResult) (batch : PutRecordBatchInput) (rc : Nat) (e : Str)
    (h0 : channel 0 = .failure e) :
    putToFirehoseFuel putter (fuel + 1) channel batch rc =
      if MaxRetry ≤ rc then ⟨[batch], .panicked "PutToFirehose count out.".toList⟩
      else
        PutTrace.after batch
          (putToFirehoseFuel putter fuel (fun i => channel (i + 1))
            (if strings.Contains e "ResourceNotFound".toList then
              { batch with DeliveryStreamName := putter.DefaultStream }
            else batch) (rc + 1)) := by
  rw [putToFirehoseFuel, h0]
  by_cases h : MaxRetry ≤ rc
  · simp [judgeRetryCountout, h]
  · simp [judgeRetryCountout, h]

theorem putToFirehoseFuel_partial_failure (putter : FirehosePutter) (fuel : Nat)
    (channel : Nat → SendResult) (batch : PutRecordBatchInput) (rc : Nat)
    (resp : PutRecordBatchOutput) (failedCount : Int)
    (h0 : channel 0 = .success resp) (h1 : resp.FailedPutCount = some failedCount)
    (h2 : failedCount ≠ 0) :
    putToFirehoseFuel putter (fuel + 1) channel batch rc =
      match retryLoop putter batch 0 resp.RequestResponses batch.DeliveryStreamName [] with
      | none => ⟨[batch], .fault⟩
      | some (retryName, retryRecords) =>
        if MaxRetry ≤ rc then ⟨[batch], .panicked "PutToFirehose count out.".toList⟩
        else
          PutTrace.after batch
            (putToFirehoseFuel putter fuel (fun i => channel (i + 1))
              ⟨retryName, retryRecords⟩ (rc + 1)) := by
  rw [putToFirehoseFuel, h0]
  simp only [h1, h2, ne_eq, not_false_eq_true, if_true]
  cases retryLoop putter batch 0 resp.RequestResponses batch.DeliveryStreamName [] with
  | none => rfl
  | some p =>
    by_cases h : MaxRetry ≤ rc
    · simp [judgeRetryCountout, h]
    · simp [judgeRetryCountout, h]

theorem putToFirehoseFuel_success (putter : FirehosePutter) (fuel : Nat)
    (channel : Nat → SendResult) (batch : PutRecordBatchInput) (rc : Nat)
    (h0 : attemptSucceeds (channel 0) = true) :
    putToFirehoseFuel putter (fuel + 1) channel batch rc = ⟨[batch], .returned⟩ := by
  rw [putToFirehoseFuel]
  cases hc : channel 0 with
  | failure e => simp [hc, attemptSucceeds] at h0
  | success resp =>
    have : resp.FailedPutCount = some 0 := by simpa [hc, attemptSucceeds] using h0
    simp [this]

/-- One failed attempt that does not fault: either the chain panics here, the
counter being at the ceiling, or it goes on with the next outcome, some
request and the counter plus one. -/
theorem putToFirehoseFuel_failed_step (putter : FirehosePutter) (fuel : Nat)
    (channel : Nat → SendResult) (batch : PutRecordBatchInput) (rc : Nat)
    (h0 : attemptFails (channel 0) = true)
    (hnf : (putToFirehoseFuel putter (fuel + 1) channel batch rc).finish ≠ .fault) :
    (MaxRetry ≤ rc ∧
      putToFirehoseFuel putter (fuel + 1) channel batch rc =
        ⟨[batch], .panicked "PutToFirehose count out.".toList⟩) ∨
    (rc < MaxRetry ∧ ∃ next : PutRecordBatchInput,
      putToFirehoseFuel putter (fuel + 1) channel batch rc =
        PutTrace.after batch
          (putToFirehoseFuel putter fuel (fun i => channel (i + 1)) next (rc + 1))) := by
  cases hc : channel 0 with
  | failure e =>
    rw [putToFirehoseFuel_failure putter fuel channel batch rc e hc]
    by_cases h : MaxRetry ≤ rc
    · left
      exact ⟨h, by rw [if_pos h]⟩
    · right
      exact ⟨by omega, _, by rw [if_neg h]⟩
  | success resp =>
    cases hf : resp.FailedPutCount with
    | none => simp [hc, attemptFails, hf] at h0
    | some failedCount =>
      have hne : failedCount ≠ 0 := by simpa [hc, attemptFails, hf] using h0
      have hstep := putToFirehoseFuel_partial_failure putter fuel channel batch rc resp failedCount hc hf hne
      rw [hstep] at hnf ⊢
      cases hl : retryLoop putter batch 0 resp.RequestResponses batch.DeliveryStreamName [] with
      | none => simp [hl] at hnf
      | some p =>
        obtain ⟨retryName, retryRecords⟩ := p
        by_cases h : MaxRetry ≤ rc
        · left
          exact ⟨h, by simp [h]⟩
        · right
          exact ⟨by omega, ⟨retryName, retryRecords⟩, by simp [h]⟩

theorem putToFirehoseFuel_all_fail (putter : FirehosePutter) (n : Nat) :
    ∀ (channel : Nat → SendResult) (batch : PutRecordBatchInput) (rc : Nat),
      rc + n = MaxRetry →
      (∀ i, i ≤ n → attemptFails (channel i) = true) →
      (putToFirehoseFuel putter (n + 1) channel batch rc).finish ≠ .fault →
      (putToFirehoseFuel putter (n + 1) channel batch rc).finish =
          .panicked "PutToFirehose count out.".toList ∧
        (putToFirehoseFuel putter (n + 1) channel batch rc).calls.length = n + 1 := by
  induction n with
  | zero =>
    intro channel batch rc hrc hall hnf
    rcases putToFirehoseFuel_failed_step putter 0 channel batch rc (hall 0 (Nat.le_refl _)) hnf
      with ⟨_, h⟩ | ⟨h, _⟩
    · rw [h]
      simp
    · omega
  | succ n ih =>
    intro channel batch rc hrc hall hnf
    rcases putToFirehoseFuel_failed_step putter (n + 1) channel batch rc
      (hall 0 (Nat.zero_le _)) hnf with ⟨h, _⟩ | ⟨_, next, h⟩
    · omega
    · rw [h] at hnf ⊢
      have := ih (fun i => channel (i + 1)) next (rc + 1) (by omega)
        (fun i hi => hall (i + 1) (by omega)) hnf
      simp only [PutTrace.after, List.length_cons]
      exact ⟨this.1, by rw [this.2]⟩

theorem putToFirehoseFuel_fail_then_succeed (putter : FirehosePutter) (k : Nat) :
    ∀ (n : Nat) (channel : Nat → SendResult) (batch : PutRecordBatchInput) (rc : Nat),
      rc + n = MaxRetry → k ≤ n →
      (∀ i, i < k → attemptFails (channel i) = true) →
      attemptSucceeds (channel k) = true →
      (putToFirehoseFuel putter (n + 1) channel batch rc).finish ≠ .fault →
      (putToFirehoseFuel putter (n + 1) channel batch rc).finish = .returned ∧
        (putToFirehoseFuel putter (n + 1) channel batch rc).calls.length = k + 1 := by
  induction k with
  | zero =>
    intro n channel batch rc _ _ _ hs _
    rw [putToFirehoseFuel_success putter n channel batch rc hs]
    simp
  | succ k ih =>
    intro n channel batch rc hrc hk hall hs hnf
    obtain ⟨m, rfl⟩ : ∃ m, n = m + 1 := ⟨n - 1, by omega⟩
    rcases putToFirehoseFuel_failed_step putter (m + 1) channel batch rc
      (hall 0 (Nat.succ_pos _)) hnf with ⟨h, _⟩ | ⟨_, next, h⟩
    · omega
    · rw [h] at hnf ⊢
      have := ih m (fun i => channel (i + 1)) next (rc + 1) (by omega) (by omega)
        (fun i hi => hall (i + 1) (by omega)) hs hnf
      simp only [PutTrace.after, List.length_cons]
      exact ⟨this.1, by rw [this.2]⟩

/-- The retry ceiling on a chain started with retry counter 0 that does not
stop on a run-time fault: six failed attempts in a row end in the panic
`PutToFirehose count out.` right after the sixth call, and `k ≤ 5` failed
attempts followed by an attempt with `FailedPutCount = 0` end in a normal
return after `k + 1` calls. -/
theorem putToFirehose_retry_ceiling (putter : FirehosePutter) (channel : Nat → SendResult)
    (batch : PutRecordBatchInput)
    (hnf : (putter.putToFirehose channel batch 0).finish ≠ .fault) :
    MaxRetry = 5 ∧
    ((∀ i, i ≤ MaxRetry → attemptFails (channel i) = true) →
      (putter.putToFirehose channel batch 0).finish =
          .panicked "PutToFirehose count out.".toList ∧
        (putter.putToFirehose channel batch 0).calls.length = MaxRetry + 1) ∧
    (∀ k, k ≤ MaxRetry → (∀ i, i < k → attemptFails (channel i) = true) →
      attemptSucceeds (channel k) = true →
      (putter.putToFirehose channel batch 0).finish = .returned ∧
        (putter.putToFirehose channel batch 0).calls.length = k + 1) := by
  refine ⟨rfl, ?_, ?_⟩
  · intro hall
    exact putToFirehoseFuel_all_fail putter MaxRetry channel batch 0 (by simp) hall hnf
  · intro k hk hall hs
    exact putToFirehoseFuel_fail_then_succeed putter k MaxRetry channel batch 0 (by simp) hk
      hall hs hnf

/-- Four failed attempts (two transport errors, a partial failure, a not-found
error) and a success on the fifth attempt: the chain returns after five
calls. -/
theorem putToFirehose_retry_ceiling_witness :
    (samplePutter.putToFirehose fourFailuresThenSuccess sampleRequest 0).finish ≠ .fault ∧
    (samplePutter.putToFirehose fourFailuresThenSuccess sampleRequest 0).finish = .returned ∧
    (samplePutter.putToFirehose fourFailuresThenSuccess sampleRequest 0).calls.length = 4 + 1 :=
  ⟨by decide,
    (putToFirehose_retry_ceiling samplePutter fourFailuresThenSuccess sampleRequest
      (by decide)).2.2 4 (by decide) (by decide) (by decide)⟩

/-- C10, a defect of the code: one failed attempt, a response with
`FailedPutCount = 1` whose first result is that of a record that was put (a
record id, no error code, no error message), followed by a response with
`FailedPutCount = 0` must make the chain return after two calls; the code
stops after its first call on the nil dereference of the error code at line
89, so the claim fails there. -/
theorem putToFirehose_absent_field_faults :
    attemptFails (partialThenSuccess 0) = true ∧
    attemptSucceeds (partialThenSuccess 1) = true ∧
    samplePutter.putToFirehose partialThenSuccess sampleRequest 0 =
      ⟨[sampleRequest], .fault⟩ ∧
    ¬ (∀ (putter : FirehosePutter) (channel : Nat → SendResult) (batch : PutRecordBatchInput)
        (k : Nat), k ≤ MaxRetry → (∀ i, i < k → attemptFails (channel i) = true) →
        attemptSucceeds (channel k) = true →
        (putter.putToFirehose channel batch 0).finish = .returned) := by
  refine ⟨by decide, by decide, by decide, ?_⟩
  intro h
  have h1 := h samplePutter partialThenSuccess sampleRequest 1 (by decide) (by decide) (by decide)
  revert h1
  decide

/-! ## One attempt of the chain -/

theorem putToFirehose_eq_fuel (putter : FirehosePutter) (channel : Nat → SendResult)
    (batch : PutRecordBatchInput) (rc : Nat) (h : rc < MaxRetry) :
    putter.putToFirehose channel batch rc =
      putToFirehoseFuel putter ((MaxRetry - (rc + 1) + 1) + 1) channel batch rc := by
  unfold FirehosePutter.putToFirehose
  have e : MaxRetry - rc + 1 = (MaxRetry - (rc + 1) + 1) + 1 := by omega
  rw [e]

theorem putToFirehose_failure_step (putter : FirehosePutter) (channel : Nat → SendResult)
    (batch : PutRecordBatchInput) (rc : Nat) (e : Str) (hrc : rc < MaxRetry)
    (h0 : channel 0 = .failure e) :
    putter.putToFirehose channel batch rc =
      PutTrace.after batch
        (putter.putToFirehose (fun i => channel (i + 1))
          ⟨if strings.Contains e "ResourceNotFound".toList = true then putter.DefaultStream
            else batch.DeliveryStreamName, batch.Records⟩ (rc + 1)) := by
  rw [putToFirehose_eq_fuel putter channel batch rc hrc,
    putToFirehoseFuel_failure putter _ channel batch rc e h0, if_neg (by omega)]
  unfold FirehosePutter.putToFirehose
  by_cases hc : strings.Contains e "ResourceNotFound".toList = true
  · rw [if_pos hc, if_pos hc]
  · rw [if_neg hc, if_neg hc]

theorem putToFirehose_success_step (putter : FirehosePutter) (channel : Nat → SendResult)
    (batch : PutRecordBatchInput) (rc : Nat) (h0 : attemptSucceeds (channel 0) = true) :
    putter.putToFirehose channel batch rc = ⟨[batch], .returned⟩ := by
  unfold FirehosePutter.putToFirehose
  exact putToFirehoseFuel_success putter _ channel batch rc h0

/-- C11: with a retry counter below 5, a delivery call that returns an error is
followed by an attempt that carries the same records, addressed to
`DefaultStream` when the error text contains `ResourceNotFound` and to the
unchanged destination otherwise; a not-found error followed by a successful
call makes exactly two calls, the second addressed to `DefaultStream`. -/
theorem putToFirehose_call_error_retry (putter : FirehosePutter)
    (channel : Nat → SendResult) (batch : PutRecordBatchInput) (rc : Nat) (e : Str)
    (hrc : rc < MaxRetry) (h0 : channel 0 = .failure e) :
    putter.putToFirehose channel batch rc =
      PutTrace.after batch
        (putter.putToFirehose (fun i => channel (i + 1))
          ⟨if strings.Contains e "ResourceNotFound".toList = true then putter.DefaultStream
            else batch.DeliveryStreamName, batch.Records⟩ (rc + 1)) ∧
    (strings.Contains e "ResourceNotFound".toList = true →
      attemptSucceeds (channel 1) = true →
      putter.putToFirehose channel batch rc =
        ⟨[batch, ⟨putter.DefaultStream, batch.Records⟩], .returned⟩) ∧
    (strings.Contains e "ResourceNotFound".toList = false →
      attemptSucceeds (channel 1) = true →
      putter.putToFirehose channel batch rc =
        ⟨[batch, ⟨batch.DeliveryStreamName, batch.Records⟩], .returned⟩) := by
  have hstep := putToFirehose_failure_step putter channel batch rc e hrc h0
  refine ⟨hstep, ?_, ?_⟩
  · intro hc hs
    rw [hstep, putToFirehose_success_step putter (fun i => channel (i + 1)) _ (rc + 1) hs,
      if_pos hc]
    rfl
  · intro hc hs
    rw [hstep, putToFirehose_success_step putter (fun i => channel (i + 1)) _ (rc + 1) hs,
      if_neg (by rw [hc]; decide)]
    rfl

/-- A not-found error on the first call and a success on the second: two calls,
the first to `s`, the second to `dflt` with the same two records. -/
theorem putToFirehose_call_error_retry_witness :
    samplePutter.putToFirehose notFoundThenSuccess sampleRequest 0 =
      ⟨[sampleRequest, ⟨"dflt".toList, [⟨"a\n".toList⟩, ⟨"b\n".toList⟩]⟩], .returned⟩ :=
  (putToFirehose_call_error_retry samplePutter notFoundThenSuccess sampleRequest 0
    "ResourceNotFoundException: no stream".toList (by decide) (by decide)).2.1
    (by decide) (by decide)

/-! ## The loop over the per-record results -/

theorem isFailedEntry_present (e : PutRecordBatchResponseEntry) (h : e.present = true) :
    isFailedEntry e = some (flagged e) := by
  obtain ⟨code, message, recordId⟩ := e
  cases code with
  | none => simp [PutRecordBatchResponseEntry.present] at h
  | some c =>
    cases message with
    | none => simp [PutRecordBatchResponseEntry.present] at h
    | some m =>
      cases recordId with
      | none => simp [PutRecordBatchResponseEntry.present] at h
      | some r =>
        by_cases hc : c = []
        · by_cases hm : m = []
          · simp [isFailedEntry, flagged, hc, hm]
          · simp [isFailedEntry, flagged, hc, hm]
        · simp [isFailedEntry, flagged, hc]

theorem drop_at_index (records : List Record) (index : Nat)
    (h : index < records.length) :
    ∃ record, records[index]? = some record ∧
      records.drop index = record :: records.drop (index + 1) := by
  refine ⟨records[index], List.getElem?_eq_getElem h, ?_⟩
  exact List.drop_eq_getElem_cons h

theorem retryLoop_present (putter : FirehosePutter) (batch : PutRecordBatchInput)
    (results : List PutRecordBatchResponseEntry) :
    ∀ (index : Nat) (name : Str) (acc : List Record),
      (∀ e ∈ results, e.present = true) →
      index + results.length ≤ batch.Records.length →
      retryLoop putter batch index results name acc =
        some (if flagsNotFound results = true then putter.DefaultStream else name,
          acc ++ flaggedRecords (batch.Records.drop index) results) := by
  induction results with
  | nil =>
    intro index name acc _ _
    simp [retryLoop, flagsNotFound, flaggedRecords]
  | cons e rest ih =>
    intro index name acc hp hlen
    have hpe : e.present = true := hp e (List.mem_cons_self _ _)
    have hprest : ∀ x ∈ rest, x.present = true := fun x hx => hp x (List.mem_cons_of_mem _ hx)
    have hidx : index < batch.Records.length := by
      simp only [List.length_cons] at hlen
      omega
    have hlen2 : index + 1 + rest.length ≤ batch.Records.length := by
      simp only [List.length_cons] at hlen
      omega
    obtain ⟨record, hget, hdrop⟩ := drop_at_index batch.Records index hidx
    rw [retryLoop, isFailedEntry_present e hpe, hdrop]
    by_cases hf : flagged e = true
    · obtain ⟨code, message, recordId⟩ := e
      cases code with
      | none => simp [PutRecordBatchResponseEntry.present] at hpe
      | some c =>
        cases message with
        | none => simp [PutRecordBatchResponseEntry.present] at hpe
        | some m =>
          simp only [hf, hget]
          rw [ih (index + 1) _ _ hprest hlen2]
          have hzip : flaggedRecords (record :: List.drop (index + 1) batch.Records)
              (⟨some c, some m, recordId⟩ :: rest) =
              record :: flaggedRecords (List.drop (index + 1) batch.Records) rest := by
            simp [flaggedRecords, List.zip_cons_cons, List.filter_cons, hf]
          rw [hzip]
          have hany : flagsNotFound (⟨some c, some m, recordId⟩ :: rest) =
              (strings.Contains m "ResourceNotFound".toList || flagsNotFound rest) := by
            simp only [flagsNotFound, List.any_cons, hf, Bool.true_and, Option.getD_some]
          rw [hany]
          by_cases hc : strings.Contains m "ResourceNotFound".toList = true
          · rw [if_pos hc]
            simp only [hc, Bool.true_or, if_true, List.append_assoc, List.singleton_append,
              ite_self]
          · have hc2 : strings.Contains m "ResourceNotFound".toList = false := by
              simpa using hc
            rw [if_neg hc]
            simp only [hc2, Bool.false_or, List.append_assoc, List.singleton_append]
    · have hf2 : flagged e = false := by simpa using hf
      simp only [hf2]
      rw [ih (index + 1) _ _ hprest hlen2]
      have hzip : flaggedRecords (record :: List.drop (index + 1) batch.Records) (e :: rest) =
          flaggedRecords (List.drop (index + 1) batch.Records) rest := by
        simp [flaggedRecords, List.zip_cons_cons, List.filter_cons, hf2]
      have hany : flagsNotFound (e :: rest) = flagsNotFound rest := by
        simp only [flagsNotFound, List.any_cons, hf2, Bool.false_and, Bool.false_or]
      rw [hzip, hany]

theorem retryLoop_sublist (putter : FirehosePutter) (batch : PutRecordBatchInput)
    (results : List PutRecordBatchResponseEntry) :
    ∀ (index : Nat) (name : Str) (acc : List Record) (n : Str) (r : List Record),
      retryLoop putter batch index results name acc = some (n, r) →
      ∃ picked, r = acc ++ picked ∧ List.Sublist picked (batch.Records.drop index) := by
  induction results with
  | nil =>
    intro index name acc n r h
    simp only [retryLoop, Option.some.injEq, Prod.mk.injEq] at h
    exact ⟨[], by simp [h.2], List.nil_sublist _⟩
  | cons e rest ih =>
    intro index name acc n r h
    rw [retryLoop] at h
    cases hfe : isFailedEntry e with
    | none => simp [hfe] at h
    | some b =>
      cases b with
      | false =>
        simp only [hfe] at h
        obtain ⟨picked, hr, hs⟩ := ih (index + 1) name acc n r h
        refine ⟨picked, hr, hs.trans ?_⟩
        rw [← List.drop_drop]
        exact List.drop_sublist _ _
      | true =>
        simp only [hfe] at h
        cases hg : batch.Records[index]? with
        | none => simp [hg] at h
        | some record =>
          cases hc : e.ErrorCode with
          | none => simp [hg, hc] at h
          | some c =>
            cases hm : e.ErrorMessage with
            | none => simp [hg, hc, hm] at h
            | some m =>
              simp only [hg, hc, hm] at h
              obtain ⟨picked, hr, hs⟩ := ih (index + 1) _ _ n r h
              have hidx : index < batch.Records.length := by
                by_contra hn
                rw [List.getElem?_eq_none (by omega)] at hg
                exact Option.noConfusion hg
              obtain ⟨record2, hget, hdrop⟩ := drop_at_index batch.Records index hidx
              have hrec : record2 = record := by
                rw [hg] at hget
                exact (Option.some.inj hget).symm
              refine ⟨record :: picked, by simp [hr], ?_⟩
              rw [hdrop, hrec]
              exact hs.cons₂ record

theorem retryLoop_name (putter : FirehosePutter) (batch : PutRecordBatchInput)
    (results : List PutRecordBatchResponseEntry) :
    ∀ (index : Nat) (name : Str) (acc : List Record) (n : Str) (r : List Record),
      retryLoop putter batch index results name acc = some (n, r) →
      (n = name ∨ n = putter.DefaultStream) ∧
      ((∃ e ∈ results, isFailedEntry e = some true ∧
          ∃ m, e.ErrorMessage = some m ∧
            strings.Contains m "ResourceNotFound".toList = true) →
        n = putter.DefaultStream) := by
  induction results with
  | nil =>
    intro index name acc n r h
    simp only [retryLoop, Option.some.injEq, Prod.mk.injEq] at h
    refine ⟨Or.inl h.1.symm, ?_⟩
    rintro ⟨e, he, _⟩
    simp at he
  | cons e rest ih =>
    intro index name acc n r h
    rw [retryLoop] at h
    cases hfe : isFailedEntry e with
    | none => simp [hfe] at h
    | some b =>
      cases b with
      | false =>
        simp only [hfe] at h
        obtain ⟨h1, h2⟩ := ih (index + 1) name acc n r h
        refine ⟨h1, ?_⟩
        rintro ⟨x, hx, hxf, hxm⟩
        rcases List.mem_cons.mp hx with rfl | hx
        · rw [hfe] at hxf
          simp at hxf
        · exact h2 ⟨x, hx, hxf, hxm⟩
      | true =>
        simp only [hfe] at h
        cases hg : batch.Records[index]? with
        | none => simp [hg] at h
        | some record =>
          cases hc : e.ErrorCode with
          | none => simp [hg, hc] at h
          | some c =>
            cases hm : e.ErrorMessage with
            | none => simp [hg, hc, hm] at h
            | some m =>
              simp only [hg, hc, hm] at h
              obtain ⟨h1, h2⟩ := ih (index + 1) _ _ n r h
              by_cases hcont : strings.Contains m "ResourceNotFound".toList = true
              · rw [if_pos hcont] at h1
                have hn : n = putter.DefaultStream := h1.elim id id
                exact ⟨Or.inr hn, fun _ => hn⟩
              · rw [if_neg hcont] at h1
                refine ⟨h1, ?_⟩
                rintro ⟨x, hx, hxf, mx, hxm, hxc⟩
                rcases List.mem_cons.mp hx with rfl | hx
                · rw [hm] at hxm
                  rw [Option.some.inj hxm] at hcont
                  exact absurd hxc hcont
                · exact h2 ⟨x, hx, hxf, mx, hxm, hxc⟩

/-- One attempt of the chain: it ends the chain after its call, or the counter
is below the ceiling and the chain goes on with the next outcome, the counter
plus one and a request whose records are a sub-list of this request's and whose
destination is this request's or `DefaultStream`. -/
theorem putToFirehoseFuel_step (putter : FirehosePutter) (fuel : Nat)
    (channel : Nat → SendResult) (batch : PutRecordBatchInput) (rc : Nat) :
    (∃ e, e ≠ PutEnd.outOfFuel ∧
      putToFirehoseFuel putter (fuel + 1) channel batch rc = ⟨[batch], e⟩) ∨
    (rc < MaxRetry ∧ ∃ next : PutRecordBatchInput,
      putToFirehoseFuel putter (fuel + 1) channel batch rc =
        PutTrace.after batch
          (putToFirehoseFuel putter fuel (fun i => channel (i + 1)) next (rc + 1)) ∧
      List.Sublist next.Records batch.Records ∧
      (next.DeliveryStreamName = batch.DeliveryStreamName ∨
        next.DeliveryStreamName = putter.DefaultStream)) := by
  cases hc : channel 0 with
  | failure e =>
    rw [putToFirehoseFuel_failure putter fuel channel batch rc e hc]
    by_cases h : MaxRetry ≤ rc
    · left
      exact ⟨.panicked "PutToFirehose count out.".toList, PutEnd.noConfusion, by rw [if_pos h]⟩
    · right
      refine ⟨by omega, _, by rw [if_neg h], ?_, ?_⟩
      · by_cases hcont : strings.Contains e "ResourceNotFound".toList = true
        · rw [if_pos hcont]
        · rw [if_neg hcont]
      · by_cases hcont : strings.Contains e "ResourceNotFound".toList = true
        · rw [if_pos hcont]
          exact Or.inr rfl
        · rw [if_neg hcont]
          exact Or.inl rfl
  | success resp =>
    cases hf : resp.FailedPutCount with
    | none =>
      left
      refine ⟨.fault, by simp, ?_⟩
      rw [putToFirehoseFuel, hc]
      simp [hf]
    | some failedCount =>
      by_cases hz : failedCount = 0
      · left
        refine ⟨.returned, by simp, ?_⟩
        exact putToFirehoseFuel_success putter fuel channel batch rc
          (by simp [hc, attemptSucceeds, hf, hz])
      · rw [putToFirehoseFuel_partial_failure putter fuel channel batch rc resp failedCount hc hf hz]
        cases hl : retryLoop putter batch 0 resp.RequestResponses batch.DeliveryStreamName [] with
        | none =>
          left
          exact ⟨.fault, by simp, rfl⟩
        | some p =>
          obtain ⟨retryName, retryRecords⟩ := p
          by_cases h : MaxRetry ≤ rc
          · left
            refine ⟨.panicked "PutToFirehose count out.".toList, PutEnd.noConfusion, ?_⟩
            show (if MaxRetry ≤ rc then _ else _) = _
            rw [if_pos h]
          · right
            obtain ⟨picked, hr, hs⟩ := retryLoop_sublist putter batch _ _ _ _ _ _ hl
            have hn := (retryLoop_name putter batch _ _ _ _ _ _ hl).1
            refine ⟨by omega, ⟨retryName, retryRecords⟩, by simp [h], ?_, hn⟩
            simpa [hr] using hs

/-! ## The calls of a chain -/

theorem putToFirehoseFuel_calls_sublist (putter : FirehosePutter) (fuel : Nat) :
    ∀ (channel : Nat → SendResult) (batch : PutRecordBatchInput) (rc : Nat),
      ∀ c ∈ (putToFirehoseFuel putter fuel channel batch rc).calls,
        List.Sublist c.Records batch.Records := by
  induction fuel with
  | zero =>
    intro channel batch rc c hc
    simp [putToFirehoseFuel] at hc
  | succ fuel ih =>
    intro channel batch rc c hc
    rcases putToFirehoseFuel_step putter fuel channel batch rc with
      ⟨e, _, h⟩ | ⟨_, next, h, hsub, _⟩
    · rw [h] at hc
      rw [List.mem_singleton.mp hc]
    · rw [h] at hc
      simp only [PutTrace.after, List.mem_cons] at hc
      rcases hc with rfl | hc
      · exact List.Sublist.refl _
      · exact (ih _ next (rc + 1) c hc).trans hsub

theorem putToFirehoseFuel_calls_length (putter : FirehosePutter) (fuel : Nat) :
    ∀ (channel : Nat → SendResult) (batch : PutRecordBatchInput) (rc : Nat),
      (putToFirehoseFuel putter fuel channel batch rc).calls.length ≤ fuel := by
  induction fuel with
  | zero =>
    intro channel batch rc
    simp [putToFirehoseFuel]
  | succ fuel ih =>
    intro channel batch rc
    rcases putToFirehoseFuel_step putter fuel channel batch rc with
      ⟨e, _, h⟩ | ⟨_, next, h, _, _⟩
    · rw [h]
      simp
    · rw [h]
      have := ih (fun i => channel (i + 1)) next (rc + 1)
      simp only [PutTrace.after, List.length_cons]
      omega

theorem putToFirehoseFuel_enough_fuel (putter : FirehosePutter) (fuel : Nat) :
    ∀ (channel : Nat → SendResult) (batch : PutRecordBatchInput) (rc : Nat),
      MaxRetry < rc + (fuel + 1) →
      (putToFirehoseFuel putter (fuel + 1) channel batch rc).finish ≠ .outOfFuel := by
  induction fuel with
  | zero =>
    intro channel batch rc hrc
    rcases putToFirehoseFuel_step putter 0 channel batch rc with
      ⟨e, he, h⟩ | ⟨hlt, _⟩
    · rw [h]
      exact he
    · omega
  | succ fuel ih =>
    intro channel batch rc hrc
    rcases putToFirehoseFuel_step putter (fuel + 1) channel batch rc with
      ⟨e, he, h⟩ | ⟨_, next, h, _, _⟩
    · rw [h]
      exact he
    · rw [h]
      exact ih (fun i => channel (i + 1)) next (rc + 1) (by omega)

theorem putToFirehoseFuel_calls_default (putter : FirehosePutter) (fuel : Nat) :
    ∀ (channel : Nat → SendResult) (batch : PutRecordBatchInput) (rc : Nat),
      batch.DeliveryStreamName = putter.DefaultStream →
      ∀ c ∈ (putToFirehoseFuel putter fuel channel batch rc).calls,
        c.DeliveryStreamName = putter.DefaultStream := by
  induction fuel with
  | zero =>
    intro channel batch rc _ c hc
    simp [putToFirehoseFuel] at hc
  | succ fuel ih =>
    intro channel batch rc hb c hc
    rcases putToFirehoseFuel_step putter fuel channel batch rc with
      ⟨e, _, h⟩ | ⟨_, next, h, _, hname⟩
    · rw [h] at hc
      rw [List.mem_singleton.mp hc]
      exact hb
    · rw [h] at hc
      simp only [PutTrace.after, List.mem_cons] at hc
      rcases hc with rfl | hc
      · exact hb
      · exact ih _ next (rc + 1) (hname.elim (fun h1 => h1.trans hb) id) c hc

theorem putToFirehoseFuel_staysAt (putter : FirehosePutter) (fuel : Nat) :
    ∀ (channel : Nat → SendResult) (batch : PutRecordBatchInput) (rc : Nat),
      staysAt putter.DefaultStream (putToFirehoseFuel putter fuel channel batch rc).calls := by
  induction fuel with
  | zero =>
    intro channel batch rc
    simp [putToFirehoseFuel, staysAt]
  | succ fuel ih =>
    intro channel batch rc
    rcases putToFirehoseFuel_step putter fuel channel batch rc with
      ⟨e, _, h⟩ | ⟨_, next, h, _, hname⟩
    · rw [h]
      simp [staysAt]
    · rw [h]
      refine ⟨?_, ih _ next (rc + 1)⟩
      intro hb x hx
      exact putToFirehoseFuel_calls_default putter fuel _ next (rc + 1)
        (hname.elim (fun h1 => h1.trans hb) id) x hx

theorem putToFirehose_partial_step (putter : FirehosePutter) (channel : Nat → SendResult)
    (batch : PutRecordBatchInput) (rc : Nat) (resp : PutRecordBatchOutput) (failedCount : Int)
    (n : Str) (r : List Record)
    (hrc : rc < MaxRetry) (h0 : channel 0 = .success resp)
    (h1 : resp.FailedPutCount = some failedCount) (h2 : failedCount ≠ 0)
    (hl : retryLoop putter batch 0 resp.RequestResponses batch.DeliveryStreamName [] =
      some (n, r)) :
    putter.putToFirehose channel batch rc =
      PutTrace.after batch (putter.putToFirehose (fun i => channel (i + 1)) ⟨n, r⟩ (rc + 1)) := by
  rw [putToFirehose_eq_fuel putter channel batch rc hrc,
    putToFirehoseFuel_partial_failure putter _ channel batch rc resp failedCount h0 h1 h2, hl]
  show (if MaxRetry ≤ rc then _ else _) = _
  rw [if_neg (by omega)]
  rfl

/-- The retry request when no pointer is nil: with a retry counter below 5,
after a response with non-zero `FailedPutCount`, one per-record result per
record and every field of every result present, the retry request holds exactly
the records at the positions whose result has a non-empty error code, a
non-empty error message or an empty record id, in their order, and every later
request of the chain holds a sub-list of them. -/
theorem putToFirehose_partial_failure_retry (putter : FirehosePutter)
    (channel : Nat → SendResult) (batch : PutRecordBatchInput) (rc : Nat)
    (resp : PutRecordBatchOutput) (failedCount : Int)
    (hrc : rc < MaxRetry) (h0 : channel 0 = .success resp)
    (h1 : resp.FailedPutCount = some failedCount) (h2 : failedCount ≠ 0)
    (hlen : resp.RequestResponses.length = batch.Records.length)
    (hp : ∀ e ∈ resp.RequestResponses, e.present = true) :
    putter.putToFirehose channel batch rc =
      PutTrace.after batch
        (putter.putToFirehose (fun i => channel (i + 1))
          ⟨if flagsNotFound resp.RequestResponses = true then putter.DefaultStream
            else batch.DeliveryStreamName,
            flaggedRecords batch.Records resp.RequestResponses⟩ (rc + 1)) ∧
    (∀ c ∈ (putter.putToFirehose (fun i => channel (i + 1))
          ⟨if flagsNotFound resp.RequestResponses = true then putter.DefaultStream
            else batch.DeliveryStreamName,
            flaggedRecords batch.Records resp.RequestResponses⟩ (rc + 1)).calls,
      List.Sublist c.Records (flaggedRecords batch.Records resp.RequestResponses)) ∧
    (∀ code message recordId : Str,
      flagged ⟨some code, some message, some recordId⟩ = true ↔
        (code ≠ [] ∨ message ≠ [] ∨ recordId = [])) := by
  have hl := retryLoop_present putter batch resp.RequestResponses 0 batch.DeliveryStreamName []
    hp (by omega)
  simp only [List.drop_zero, List.nil_append] at hl
  refine ⟨putToFirehose_partial_step putter channel batch rc resp failedCount _ _ hrc h0 h1 h2 hl,
    ?_, ?_⟩
  · intro c hc
    exact putToFirehoseFuel_calls_sublist putter _ _ _ _ c hc
  · intro code message recordId
    simp [flagged, or_assoc]

/-- The response that flags two records of five, the second and the fourth:
the retry request holds exactly these two, and the chain ends after it. -/
theorem putToFirehose_partial_failure_retry_witness :
    flaggedRecords fiveRecordRequest.Records twoOfFiveResponse.RequestResponses =
      [⟨"b\n".toList⟩, ⟨"d\n".toList⟩] ∧
    samplePutter.putToFirehose twoOfFiveThenSuccess fiveRecordRequest 0 =
      ⟨[fiveRecordRequest, ⟨"s".toList, [⟨"b\n".toList⟩, ⟨"d\n".toList⟩]⟩], .returned⟩ ∧
    samplePutter.putToFirehose twoOfFiveThenSuccess fiveRecordRequest 0 =
      PutTrace.after fiveRecordRequest
        (samplePutter.putToFirehose (fun i => twoOfFiveThenSuccess (i + 1))
          ⟨if flagsNotFound twoOfFiveResponse.RequestResponses = true then
              samplePutter.DefaultStream
            else fiveRecordRequest.DeliveryStreamName,
            flaggedRecords fiveRecordRequest.Records twoOfFiveResponse.RequestResponses⟩
          (0 + 1)) :=
  ⟨by decide, by decide,
    (putToFirehose_partial_failure_retry samplePutter twoOfFiveThenSuccess fiveRecordRequest 0
      twoOfFiveResponse 2 (by decide) (by decide) (by decide) (by decide) (by decide)
      (by decide)).1⟩

/-- C12, a defect of the code: the response `partialFailureResponse` has one
result per record, that of a record that was put (a record id only) and that
of a failed record (error code and message only), so the retry request must
hold the second record alone; the code builds no retry request, it stops on
the nil dereference of the first result's error code at line 89. -/
theorem putToFirehose_partial_failure_no_retry :
    partialFailureResponse.RequestResponses.length = sampleRequest.Records.length ∧
    flaggedRecords sampleRequest.Records partialFailureResponse.RequestResponses =
      [⟨"b\n".toList⟩] ∧
    samplePutter.putToFirehose partialThenSuccess sampleRequest 0 =
      ⟨[sampleRequest], .fault⟩ ∧
    ¬ (∀ (putter : FirehosePutter) (channel : Nat → SendResult) (batch : PutRecordBatchInput)
        (rc : Nat) (resp : PutRecordBatchOutput) (failedCount : Int),
        rc < MaxRetry → channel 0 = .success resp →
        resp.FailedPutCount = some failedCount → failedCount ≠ 0 →
        resp.RequestResponses.length = batch.Records.length →
        ∃ retryName : Str,
          putter.putToFirehose channel batch rc =
            PutTrace.after batch
              (putter.putToFirehose (fun i => channel (i + 1))
                ⟨retryName, flaggedRecords batch.Records resp.RequestResponses⟩ (rc + 1))) := by
  refine ⟨by decide, by decide, by decide, ?_⟩
  intro h
  obtain ⟨retryName, hr⟩ := h samplePutter partialThenSuccess sampleRequest 0
    partialFailureResponse 1 (by decide) (by decide) (by decide) (by decide) (by decide)
  have hs := putToFirehose_success_step samplePutter (fun i => partialThenSuccess (i + 1))
    ⟨retryName, flaggedRecords sampleRequest.Records partialFailureResponse.RequestResponses⟩
    (0 + 1) (by decide)
  rw [hs] at hr
  have hfin := congrArg PutTrace.finish hr
  have hleft : (samplePutter.putToFirehose partialThenSuccess sampleRequest 0).finish =
      .fault := by decide
  rw [hleft] at hfin
  exact PutEnd.noConfusion hfin

/-! ## The substitution rules -/

theorem foldl_replaceSettings (settings : List Str) :
    ∀ acc : List (Str × Str),
      settings.foldl
          (fun result replaceSetting =>
            match strings.SplitN2 replaceSetting ['/'] with
            | [s0, s1] => result ++ [(s0, s1)]
            | _ => result)
          acc =
        acc ++
          (settings.filter (fun entry => decide ('/' ∈ entry))).map
            (fun entry =>
              (entry.takeWhile (fun ch => decide (ch ≠ '/')),
                (entry.dropWhile (fun ch => decide (ch ≠ '/'))).drop 1)) := by
  induction settings with
  | nil => intro acc; simp
  | cons entry rest ih =>
    intro acc
    rw [List.foldl_cons, ih, strings.SplitN2_single]
    by_cases hm : '/' ∈ entry
    · rw [if_pos hm, List.filter_cons, if_pos (by simpa using hm)]
      simp
    · rw [if_neg hm, List.filter_cons, if_neg (by simpa using hm)]

/-- C13: `CreateReplacePatterns` is total and returns, in order, the pairs
(text before the first `/`, text after the first `/`) of the comma-separated
entries that contain a `/`; the other entries contribute nothing, and
`"a/b,c"` gives the one pair `("a", "b")`. -/
theorem CreateReplacePatterns_pairs (replaceConfig : Str) :
    CreateReplacePatterns replaceConfig =
      ((replaceConfig.splitOn ',').filter (fun entry => decide ('/' ∈ entry))).map
        (fun entry =>
          (entry.takeWhile (fun ch => decide (ch ≠ '/')),
            (entry.dropWhile (fun ch => decide (ch ≠ '/'))).drop 1)) ∧
    CreateReplacePatterns "a/b,c".toList = [("a".toList, "b".toList)] ∧
    CreateReplacePatterns [] = [] ∧
    CreateReplacePatterns "x/y/z,,/,w".toList = [("x".toList, "y/z".toList), ([], [])] := by
  refine ⟨?_, by decide, by decide, by decide⟩
  unfold CreateReplacePatterns
  rw [strings.Split_single, foldl_replaceSettings]
  simp

/-! ## The empty input and the keys of the map -/

/-- C14: for every converter, also one with a non-empty `DeliveryStream`,
`ConvertToFirehoseDatas` of the empty record list is the empty map. -/
theorem ConvertToFirehoseDatas_empty_input (c : FirehoseConverter) :
    c.ConvertToFirehoseDatas [] = [] ∧
    (c.ConvertToFirehoseDatas []).keys = [] ∧
    (∀ k : Str, (c.ConvertToFirehoseDatas []).get k = none) ∧
    (FirehoseConverter.mk "fixed".toList "dflt".toList "k".toList [] [] []).ConvertToFirehoseDatas
      [] = [] := by
  have h : c.ConvertToFirehoseDatas [] = [] := by
    simp [FirehoseConverter.ConvertToFirehoseDatas]
  rw [h]
  refine ⟨rfl, rfl, fun k => rfl, by decide⟩

theorem mem_keys_of_label (c : FirehoseConverter) (rs : List Str)
    (h : c.DeliveryStream = []) (k : Str) :
    k ∈ (c.ConvertToFirehoseDatas rs).keys ↔ ∃ r ∈ rs, c.dest r = k := by
  rw [StrMap.mem_keys_iff, ConvertToFirehoseDatas_get c rs h, ← filter_dest_ne_nil_iff]
  by_cases hf : rs.filter (fun r => decide (c.dest r = k)) = []
  · simp [hf]
  · simp [hf]

theorem dest_ne_nil (c : FirehoseConverter) (r : Str)
    (hd : c.DefaultStream ≠ []) (ha : c.AddPrefix ≠ []) : c.dest r ≠ [] := by
  unfold FirehoseConverter.dest
  by_cases h : extractValueFromLtsvLine r c.TargetColumn = []
  · rw [if_pos h]
    exact hd
  · rw [if_neg h, convertToDeliveryStream_eq]
    intro hnil
    exact ha (List.append_eq_nil.mp hnil).1

theorem dest_ne_nil_of_plain (c : FirehoseConverter) (r : Str)
    (hd : c.DefaultStream ≠ []) (hr : c.RemovePrefix = []) (hp : c.ReplacePatterns = []) :
    c.dest r ≠ [] := by
  unfold FirehoseConverter.dest
  by_cases h : extractValueFromLtsvLine r c.TargetColumn = []
  · rw [if_pos h]
    exact hd
  · rw [if_neg h, convertToDeliveryStream_eq, hr, hp]
    intro hnil
    have h2 := (List.append_eq_nil.mp hnil).2
    simp only [List.foldl_nil, removeLeadingPrefix, List.nil_prefix, if_true,
      List.length_nil, List.drop_zero] at h2
    exact h h2

theorem keys_of_fixed_stream (c : FirehoseConverter) (rs : List Str)
    (hds : c.DeliveryStream ≠ []) :
    ∀ k ∈ (c.ConvertToFirehoseDatas rs).keys, k ≠ [] := by
  intro k hk
  cases rs with
  | nil => simp [FirehoseConverter.ConvertToFirehoseDatas, StrMap.keys] at hk
  | cons r rs =>
    simp only [FirehoseConverter.ConvertToFirehoseDatas, List.length_cons, Nat.succ_ne_zero,
      if_false, ne_eq, hds, not_false_eq_true, if_true, StrMap.set, StrMap.keys, List.map_cons,
      List.map_nil, List.mem_singleton] at hk
    rw [hk]
    exact hds

theorem keys_nonempty_iff (c : FirehoseConverter) (rs : List Str) :
    (∀ k ∈ (c.ConvertToFirehoseDatas rs).keys, k ≠ []) ↔
      (c.DeliveryStream ≠ [] ∨ ∀ r ∈ rs, c.dest r ≠ []) := by
  by_cases hds : c.DeliveryStream = []
  · constructor
    · intro h
      right
      intro r hr
      exact h (c.dest r) ((mem_keys_of_label c rs hds _).mpr ⟨r, hr, rfl⟩)
    · rintro (h | h)
      · exact absurd hds h
      · intro k hk
        obtain ⟨r, hr, hrk⟩ := (mem_keys_of_label c rs hds k).mp hk
        rw [← hrk]
        exact h r hr
  · constructor
    · intro _
      exact Or.inl hds
    · intro _
      exact keys_of_fixed_stream c rs hds

/-- C15, as amended: every key of the map returned by `ConvertToFirehoseDatas`
is a non-empty string exactly when `DeliveryStream` is non-empty or the
destination of every record is non-empty (`DefaultStream` for a record without
a labelled value, the resolved value otherwise); this is so for every record
list when `DeliveryStream` is non-empty, and under label routing when
`DefaultStream` is non-empty and either `AddPrefix` is non-empty or nothing is
stripped or replaced. -/
theorem ConvertToFirehoseDatas_keys_nonempty (c : FirehoseConverter) (rs : List Str) :
    ((∀ k ∈ (c.ConvertToFirehoseDatas rs).keys, k ≠ []) ↔
      (c.DeliveryStream ≠ [] ∨ ∀ r ∈ rs, c.dest r ≠ [])) ∧
    (c.DeliveryStream ≠ [] → ∀ k ∈ (c.ConvertToFirehoseDatas rs).keys, k ≠ []) ∧
    (c.DefaultStream ≠ [] → c.AddPrefix ≠ [] →
      ∀ k ∈ (c.ConvertToFirehoseDatas rs).keys, k ≠ []) ∧
    (c.DefaultStream ≠ [] → c.RemovePrefix = [] → c.ReplacePatterns = [] →
      ∀ k ∈ (c.ConvertToFirehoseDatas rs).keys, k ≠ []) := by
  refine ⟨keys_nonempty_iff c rs, keys_of_fixed_stream c rs, ?_, ?_⟩
  · intro hd ha
    exact (keys_nonempty_iff c rs).mpr (Or.inr (fun r _ => dest_ne_nil c r hd ha))
  · intro hd hr hp
    exact (keys_nonempty_iff c rs).mpr (Or.inr (fun r _ => dest_ne_nil_of_plain c r hd hr hp))

/-- The plain routing (default stream `dflt`, nothing stripped, replaced or
added) has the non-empty keys `a` and `dflt`; the sample routing, which adds
`fh-`, has the non-empty key `fh-a`; and the stripping routing, whose record
`k:app-` has an empty destination, has a key that is empty. -/
theorem ConvertToFirehoseDatas_keys_nonempty_witness :
    plainRouting.ConvertToFirehoseDatas ["k:a".toList, "x".toList] =
      [("a".toList, ["k:a".toList]), ("dflt".toList, ["x".toList])] ∧
    (∀ k ∈ (plainRouting.ConvertToFirehoseDatas ["k:a".toList, "x".toList]).keys, k ≠ []) ∧
    "fh-a".toList ∈ (sampleRouting.ConvertToFirehoseDatas sampleRecords).keys ∧
    "fh-a".toList ≠ [] ∧
    ¬ (∀ k ∈ (strippingRouting.ConvertToFirehoseDatas ["k:app-".toList]).keys, k ≠ []) :=
  ⟨by decide,
    (ConvertToFirehoseDatas_keys_nonempty plainRouting ["k:a".toList, "x".toList]).2.2.2
      (by decide) rfl rfl,
    by decide,
    (ConvertToFirehoseDatas_keys_nonempty sampleRouting sampleRecords).2.2.1
      (by decide) (by decide) "fh-a".toList (by decide),
    fun h =>
      ((ConvertToFirehoseDatas_keys_nonempty strippingRouting ["k:app-".toList]).1.mp h).elim
        (fun hds => hds rfl) (fun hall => hall "k:app-".toList (by decide) (by decide))⟩

/-- C15, as stated, fails: with `DeliveryStream` and `DefaultStream` empty a
record without the label is stored under the empty key, and with an empty
`AddPrefix` the value `app-` resolves to the empty key. -/
theorem ConvertToFirehoseDatas_empty_key :
    bareRouting.ConvertToFirehoseDatas ["x".toList] = [([], ["x".toList])] ∧
    ([] : Str) ∈ (bareRouting.ConvertToFirehoseDatas ["x".toList]).keys ∧
    strippingRouting.ConvertToFirehoseDatas ["k:app-".toList] = [([], ["k:app-".toList])] ∧
    ¬ (∀ (c : FirehoseConverter) (rs : List Str),
        ∀ k ∈ (c.ConvertToFirehoseDatas rs).keys, k ≠ []) := by
  refine ⟨by decide, by decide, by decide, ?_⟩
  intro h
  exact h bareRouting ["x".toList] [] (by decide) rfl

/-! ## The destination along a chain -/

theorem staysAt_index (d : Str) (calls : List PutRecordBatchInput) :
    staysAt d calls →
    ∀ (i j : Nat) (a b : PutRecordBatchInput), i ≤ j →
      calls[i]? = some a → calls[j]? = some b →
      a.DeliveryStreamName = d → b.DeliveryStreamName = d := by
  induction calls with
  | nil =>
    intro _ i j a b _ ha
    simp at ha
  | cons c rest ih =>
    intro hs i j a b hij ha hb had
    obtain ⟨hfirst, hrest⟩ := hs
    cases i with
    | zero =>
      simp only [List.getElem?_cons_zero, Option.some.injEq] at ha
      subst ha
      cases j with
      | zero =>
        simp only [List.getElem?_cons_zero, Option.some.injEq] at hb
        rw [← hb]
        exact had
      | succ j =>
        simp only [List.getElem?_cons_succ] at hb
        exact hfirst had b (List.getElem?_mem hb)
    | succ i =>
      cases j with
      | zero => omega
      | succ j =>
        simp only [List.getElem?_cons_succ] at ha hb
        exact ih hrest i j a b (by omega) ha hb had

theorem putToFirehose_calls_head (putter : FirehosePutter) (channel : Nat → SendResult)
    (batch : PutRecordBatchInput) (rc : Nat) :
    (putter.putToFirehose channel batch rc).calls[0]? = some batch := by
  unfold FirehosePutter.putToFirehose
  rcases putToFirehoseFuel_step putter (MaxRetry - rc) channel batch rc with
    ⟨e, _, h⟩ | ⟨_, next, h, _, _⟩
  · rw [h]
    simp
  · rw [h]
    simp [PutTrace.after]

/-- C17: along one chain of `putToFirehose`, once an attempt is addressed to
`DefaultStream` every later attempt is addressed to `DefaultStream`; and with a
retry counter below 5 the attempt after a call error that contains
`ResourceNotFound`, or after a partial failure in which a flagged result's
error message contains `ResourceNotFound`, is addressed to `DefaultStream`. -/
theorem putToFirehose_default_stream_sticks (putter : FirehosePutter)
    (channel : Nat → SendResult) (batch : PutRecordBatchInput) (rc : Nat) :
    (∀ (i j : Nat) (a b : PutRecordBatchInput), i ≤ j →
      (putter.putToFirehose channel batch rc).calls[i]? = some a →
      (putter.putToFirehose channel batch rc).calls[j]? = some b →
      a.DeliveryStreamName = putter.DefaultStream →
      b.DeliveryStreamName = putter.DefaultStream) ∧
    (∀ e : Str, rc < MaxRetry → channel 0 = .failure e →
      strings.Contains e "ResourceNotFound".toList = true →
      (putter.putToFirehose channel batch rc).calls[1]? =
        some ⟨putter.DefaultStream, batch.Records⟩) ∧
    (∀ (resp : PutRecordBatchOutput) (failedCount : Int), rc < MaxRetry →
      channel 0 = .success resp → resp.FailedPutCount = some failedCount → failedCount ≠ 0 →
      (∃ e ∈ resp.RequestResponses, isFailedEntry e = some true ∧
        ∃ m, e.ErrorMessage = some m ∧
          strings.Contains m "ResourceNotFound".toList = true) →
      putter.putToFirehose channel batch rc = ⟨[batch], .fault⟩ ∨
      ∃ next : PutRecordBatchInput,
        (putter.putToFirehose channel batch rc).calls[1]? = some next ∧
        next.DeliveryStreamName = putter.DefaultStream) := by
  refine ⟨?_, ?_, ?_⟩
  · exact staysAt_index putter.DefaultStream _
      (putToFirehoseFuel_staysAt putter _ channel batch rc)
  · intro e hrc h0 hc
    rw [putToFirehose_failure_step putter channel batch rc e hrc h0, if_pos hc]
    simp only [PutTrace.after, List.getElem?_cons_succ]
    exact putToFirehose_calls_head putter _ _ _
  · intro resp failedCount hrc h0 h1 h2 hex
    cases hl : retryLoop putter batch 0 resp.RequestResponses batch.DeliveryStreamName [] with
    | none =>
      left
      rw [putToFirehose_eq_fuel putter channel batch rc hrc,
        putToFirehoseFuel_partial_failure putter _ channel batch rc resp failedCount h0 h1 h2, hl]
    | some p =>
      obtain ⟨n, r⟩ := p
      right
      refine ⟨⟨n, r⟩, ?_, (retryLoop_name putter batch _ _ _ _ _ _ hl).2 hex⟩
      rw [putToFirehose_partial_step putter channel batch rc resp failedCount n r hrc h0 h1 h2 hl]
      simp only [PutTrace.after, List.getElem?_cons_succ]
      exact putToFirehose_calls_head putter _ _ _

/-- The chain of four failures and a success: its fourth attempt, after the
not-found error, is addressed to `dflt`, and so is its fifth. -/
theorem putToFirehose_default_stream_sticks_witness :
    (samplePutter.putToFirehose fourFailuresThenSuccess sampleRequest 0).calls.map
        (fun b => b.DeliveryStreamName) =
      ["s".toList, "s".toList, "s".toList, "dflt".toList, "dflt".toList] ∧
    (⟨"dflt".toList, [⟨"b\n".toList⟩]⟩ : PutRecordBatchInput).DeliveryStreamName =
      samplePutter.DefaultStream ∧
    (samplePutter.putToFirehose notFoundThenSuccess sampleRequest 0).calls[1]? =
      some ⟨samplePutter.DefaultStream, sampleRequest.Records⟩ :=
  ⟨by decide,
    (putToFirehose_default_stream_sticks samplePutter fourFailuresThenSuccess sampleRequest
      0).1 3 4 ⟨"dflt".toList, [⟨"b\n".toList⟩]⟩ ⟨"dflt".toList, [⟨"b\n".toList⟩]⟩
      (by decide) (by decide) (by decide) (by decide),
    (putToFirehose_default_stream_sticks samplePutter notFoundThenSuccess sampleRequest
      0).2.1 "ResourceNotFoundException: no stream".toList (by decide) (by decide)
      (by decide)⟩

/-! ## Splitting the stored text back into records -/

theorem splitOn_terminated (c : Char) (records : List Str) :
    (∀ r ∈ records, c ∉ r) →
      ((records.map (fun r => r ++ [c])).flatten).splitOn c = records ++ [[]] := by
  induction records with
  | nil =>
    intro _
    simp [List.splitOn_nil]
  | cons r rest ih =>
    intro h
    have hr : c ∉ r := h r (List.mem_cons_self _ _)
    have hrest := ih (fun x hx => h x (List.mem_cons_of_mem _ hx))
    have hmem : c ∈ r ++ c :: (rest.map (fun r => r ++ [c])).flatten := by simp
    have hshape : ((r :: rest).map (fun r => r ++ [c])).flatten =
        r ++ c :: (rest.map (fun r => r ++ [c])).flatten := by simp
    rw [hshape, splitOn_of_mem c _ hmem]
    have htake : List.takeWhile (fun ch => decide (ch ≠ c))
        (r ++ c :: (rest.map (fun r => r ++ [c])).flatten) = r := by
      rw [List.takeWhile_append_of_pos (by
        intro x hx
        have : x ≠ c := fun hxc => hr (hxc ▸ hx)
        simpa using this)]
      simp [List.takeWhile_cons]
    have hdrop : List.dropWhile (fun ch => decide (ch ≠ c))
        (r ++ c :: (rest.map (fun r => r ++ [c])).flatten) =
        c :: (rest.map (fun r => r ++ [c])).flatten := by
      rw [List.dropWhile_append_of_pos (by
        intro x hx
        have : x ≠ c := fun hxc => hr (hxc ▸ hx)
        simpa using this)]
      simp [List.dropWhile_cons]
    rw [htake, hdrop, List.drop_one, List.tail_cons, hrest]
    rfl

theorem joinedPayloads_create (d : Str) (rs : List Str) :
    joinedPayloads (createPutRecordBatchInputs d rs) =
      ((nonEmpty rs).map (fun r => r ++ ['\n'])).flatten := by
  unfold joinedPayloads
  rw [createPutRecordBatchInputs_eq_with, createWith_payloads, List.map_map]
  rfl

/-- C18: when no record contains a newline, the payloads of all the batches of
`createPutRecordBatchInputs`, joined in order and split at each newline, the
empty piece after the last newline dropped, are the non-empty records of the
input in input order. -/
theorem createPutRecordBatchInputs_split_back (d : Str) (rs : List Str)
    (h : ∀ r ∈ rs, '\n' ∉ r) :
    ((joinedPayloads (createPutRecordBatchInputs d rs)).splitOn '\n').dropLast =
      rs.filter (fun r => decide (r ≠ [])) ∧
    (joinedPayloads (createPutRecordBatchInputs d rs)).splitOn '\n' =
      rs.filter (fun r => decide (r ≠ [])) ++ [[]] := by
  have hne : ∀ r ∈ nonEmpty rs, '\n' ∉ r := by
    intro r hr
    exact h r (List.mem_filter.mp hr).1
  have hsplit := splitOn_terminated '\n' (nonEmpty rs) hne
  rw [joinedPayloads_create, hsplit]
  exact ⟨List.dropLast_concat, rfl⟩

/-- Three records around an empty string: the stored text is `a\nb\nc\n` and
splits back into the three records. -/
theorem createPutRecordBatchInputs_split_back_witness :
    joinedPayloads (createPutRecordBatchInputs "s".toList
      ["a".toList, [], "b".toList, "c".toList]) = "a\nb\nc\n".toList ∧
    ((joinedPayloads (createPutRecordBatchInputs "s".toList
        ["a".toList, [], "b".toList, "c".toList])).splitOn '\n').dropLast =
      ["a".toList, "b".toList, "c".toList] :=
  ⟨by decide,
    (createPutRecordBatchInputs_split_back "s".toList ["a".toList, [], "b".toList, "c".toList]
      (by decide)).1⟩

/-! ## Termination of the chain and faults of the result loop -/

/-- A failed attempt: it faults, or the counter is at the ceiling and the chain
panics, or the counter is below the ceiling and the chain goes on with the
counter plus one and a sub-list of the records. -/
theorem putToFirehoseFuel_failed_cases (putter : FirehosePutter) (fuel : Nat)
    (channel : Nat → SendResult) (batch : PutRecordBatchInput) (rc : Nat)
    (hfail : attemptFails (channel 0) = true) :
    putToFirehoseFuel putter (fuel + 1) channel batch rc = ⟨[batch], .fault⟩ ∨
    (MaxRetry ≤ rc ∧
      putToFirehoseFuel putter (fuel + 1) channel batch rc =
        ⟨[batch], .panicked "PutToFirehose count out.".toList⟩) ∨
    (rc < MaxRetry ∧ ∃ next : PutRecordBatchInput,
      putToFirehoseFuel putter (fuel + 1) channel batch rc =
        PutTrace.after batch
          (putToFirehoseFuel putter fuel (fun i => channel (i + 1)) next (rc + 1)) ∧
      List.Sublist next.Records batch.Records) := by
  cases hc : channel 0 with
  | failure e =>
    rw [putToFirehoseFuel_failure putter fuel channel batch rc e hc]
    by_cases h : MaxRetry ≤ rc
    · right; left
      exact ⟨h, by rw [if_pos h]⟩
    · right; right
      refine ⟨by omega, _, by rw [if_neg h], ?_⟩
      by_cases hcont : strings.Contains e "ResourceNotFound".toList = true
      · rw [if_pos hcont]
      · rw [if_neg hcont]
  | success resp =>
    cases hf : resp.FailedPutCount with
    | none => simp [hc, attemptFails, hf] at hfail
    | some failedCount =>
      have hz : failedCount ≠ 0 := by simpa [hc, attemptFails, hf] using hfail
      rw [putToFirehoseFuel_partial_failure putter fuel channel batch rc resp failedCount hc hf hz]
      cases hl : retryLoop putter batch 0 resp.RequestResponses batch.DeliveryStreamName [] with
      | none =>
        left
        rfl
      | some p =>
        obtain ⟨retryName, retryRecords⟩ := p
        by_cases h : MaxRetry ≤ rc
        · right; left
          refine ⟨h, ?_⟩
          show (if MaxRetry ≤ rc then _ else _) = _
          rw [if_pos h]
        · right; right
          obtain ⟨picked, hr, hs⟩ := retryLoop_sublist putter batch _ _ _ _ _ _ hl
          refine ⟨by omega, ⟨retryName, retryRecords⟩, ?_, by simpa [hr] using hs⟩
          show (if MaxRetry ≤ rc then _ else _) = _
          rw [if_neg h]

/-- C19: a chain of `putToFirehose` started at retry counter 0 ends, by a
return, by the count-out panic or by a run-time panic, after at least one
and at most `MaxRetry + 1 = 6` delivery calls; a failed attempt with a counter
below 5 that does not fault goes on with the counter plus one, after a call
error and after a partial failure alike, the next request holding a sub-list of
the records; and a failed attempt with the counter at 5 or more makes no
further call. -/
theorem putToFirehose_terminates (putter : FirehosePutter) (channel : Nat → SendResult)
    (batch : PutRecordBatchInput) :
    MaxRetry + 1 = 6 ∧
    (putter.putToFirehose channel batch 0).calls.length ≤ MaxRetry + 1 ∧
    1 ≤ (putter.putToFirehose channel batch 0).calls.length ∧
    (putter.putToFirehose channel batch 0).finish ≠ .outOfFuel ∧
    (∀ rc : Nat,
      (putter.putToFirehose channel batch rc).calls.length ≤ MaxRetry - rc + 1 ∧
      (putter.putToFirehose channel batch rc).finish ≠ .outOfFuel) ∧
    (∀ rc : Nat, rc < MaxRetry → attemptFails (channel 0) = true →
      putter.putToFirehose channel batch rc = ⟨[batch], .fault⟩ ∨
      ∃ next : PutRecordBatchInput,
        putter.putToFirehose channel batch rc =
          PutTrace.after batch
            (putter.putToFirehose (fun i => channel (i + 1)) next (rc + 1)) ∧
        List.Sublist next.Records batch.Records) ∧
    (∀ rc : Nat, MaxRetry ≤ rc → attemptFails (channel 0) = true →
      putter.putToFirehose channel batch rc = ⟨[batch], .fault⟩ ∨
      putter.putToFirehose channel batch rc =
        ⟨[batch], .panicked "PutToFirehose count out.".toList⟩) := by
  have hgen : ∀ rc : Nat,
      (putter.putToFirehose channel batch rc).calls.length ≤ MaxRetry - rc + 1 ∧
      (putter.putToFirehose channel batch rc).finish ≠ .outOfFuel := by
    intro rc
    exact ⟨putToFirehoseFuel_calls_length putter _ channel batch rc,
      putToFirehoseFuel_enough_fuel putter (MaxRetry - rc) channel batch rc (by omega)⟩
  have hhead := putToFirehose_calls_head putter channel batch 0
  refine ⟨rfl, (hgen 0).1, ?_, (hgen 0).2, hgen, ?_, ?_⟩
  · cases hcalls : (putter.putToFirehose channel batch 0).calls with
    | nil => simp [hcalls] at hhead
    | cons c rest => simp
  · intro rc hrc hfail
    rw [putToFirehose_eq_fuel putter channel batch rc hrc]
    rcases putToFirehoseFuel_failed_cases putter _ channel batch rc hfail with
      h | ⟨hle, _⟩ | ⟨_, next, h, hsub⟩
    · exact Or.inl h
    · omega
    · exact Or.inr ⟨next, h, hsub⟩
  · intro rc hrc hfail
    unfold FirehosePutter.putToFirehose
    rcases putToFirehoseFuel_failed_cases putter _ channel batch rc hfail with
      h | ⟨_, h⟩ | ⟨hlt, _⟩
    · exact Or.inl h
    · exact Or.inr h
    · omega

/-- The chain of six transport errors makes six calls and panics; the chain of
four failures and a success makes five calls, and its second attempt, a partial
failure at counter 1, goes on at counter 2 with the flagged record only. -/
theorem putToFirehose_terminates_witness :
    samplePutter.putToFirehose (channelOf []) sampleRequest 0 =
      ⟨[sampleRequest, sampleRequest, sampleRequest, sampleRequest, sampleRequest,
        sampleRequest], .panicked "PutToFirehose count out.".toList⟩ ∧
    (samplePutter.putToFirehose fourFailuresThenSuccess sampleRequest 0).calls.length = 5 ∧
    (samplePutter.putToFirehose (fun i => fourFailuresThenSuccess (i + 1)) sampleRequest 1 =
        ⟨[sampleRequest], .fault⟩ ∨
      ∃ next : PutRecordBatchInput,
        samplePutter.putToFirehose (fun i => fourFailuresThenSuccess (i + 1)) sampleRequest 1 =
          PutTrace.after sampleRequest
            (samplePutter.putToFirehose (fun i => fourFailuresThenSuccess (i + 1 + 1)) next
              (1 + 1)) ∧
        List.Sublist next.Records sampleRequest.Records) :=
  ⟨by decide, by decide,
    (putToFirehose_terminates samplePutter (fun i => fourFailuresThenSuccess (i + 1))
      sampleRequest).2.2.2.2.2.1 1 (by decide) (by decide)⟩

theorem retryLoop_absent_code (putter : FirehosePutter) (batch : PutRecordBatchInput)
    (results : List PutRecordBatchResponseEntry) :
    ∀ (index : Nat) (name : Str) (acc : List Record),
      (∃ e ∈ results, e.ErrorCode = none) →
      retryLoop putter batch index results name acc = none := by
  induction results with
  | nil =>
    intro index name acc h
    obtain ⟨e, he, _⟩ := h
    simp at he
  | cons x rest ih =>
    intro index name acc h
    rw [retryLoop]
    cases hx : x.ErrorCode with
    | none => simp [isFailedEntry, hx]
    | some c =>
      have hrest : ∃ e ∈ rest, e.ErrorCode = none := by
        obtain ⟨e, he, hnone⟩ := h
        rcases List.mem_cons.mp he with rfl | he
        · rw [hx] at hnone
          exact Option.noConfusion hnone
        · exact ⟨e, he, hnone⟩
      cases hfe : isFailedEntry x with
      | none => rfl
      | some b =>
        cases b with
        | false => exact ih _ _ _ hrest
        | true =>
          cases hg : batch.Records[index]? with
          | none => rfl
          | some record =>
            cases hm : x.ErrorMessage with
            | none => rfl
            | some m => exact ih _ _ _ hrest

/-- C20: in the partial-failure branch, when the response has no more results
than the request has records and every result has its error code, error message
and record id present, the loop over the results does not fault and yields the
flagged records; a response with more results than records can fault (a flagged
result beyond the records), and a result with an absent error code always
does. -/
theorem retryLoop_fault_conditions (putter : FirehosePutter) (batch : PutRecordBatchInput)
    (results : List PutRecordBatchResponseEntry) (name : Str) :
    (results.length ≤ batch.Records.length → (∀ e ∈ results, e.present = true) →
      retryLoop putter batch 0 results name [] =
        some (if flagsNotFound results = true then putter.DefaultStream else name,
          flaggedRecords batch.Records results)) ∧
    ((∃ e ∈ results, e.ErrorCode = none) → retryLoop putter batch 0 results name [] = none) ∧
    (sampleRequest.Records.length < threeResultsResponse.RequestResponses.length ∧
      (∀ e ∈ threeResultsResponse.RequestResponses, e.present = true) ∧
      retryLoop samplePutter sampleRequest 0 threeResultsResponse.RequestResponses
        sampleRequest.DeliveryStreamName [] = none ∧
      samplePutter.putToFirehose (channelOf [.success threeResultsResponse]) sampleRequest 0 =
        ⟨[sampleRequest], .fault⟩) ∧
    (retryLoop samplePutter sampleRequest 0 partialFailureResponse.RequestResponses
        sampleRequest.DeliveryStreamName [] = none ∧
      samplePutter.putToFirehose (channelOf [.success partialFailureResponse]) sampleRequest 0 =
        ⟨[sampleRequest], .fault⟩) := by
  refine ⟨?_, ?_, ⟨by decide, by decide, by decide, by decide⟩, ⟨by decide, by decide⟩⟩
  · intro hlen hp
    have h := retryLoop_present putter batch results 0 name [] hp (by omega)
    simpa using h
  · intro h
    exact retryLoop_absent_code putter batch results 0 name [] h

/-- The response that flags two of five records has five results, every field
present: the loop yields the two flagged records; the response whose first
result has no error code makes the loop fault. -/
theorem retryLoop_fault_conditions_witness :
    retryLoop samplePutter fiveRecordRequest 0 twoOfFiveResponse.RequestResponses
        "s".toList [] =
      some (if flagsNotFound twoOfFiveResponse.RequestResponses = true then
          samplePutter.DefaultStream else "s".toList,
        flaggedRecords fiveRecordRequest.Records twoOfFiveResponse.RequestResponses) ∧
    retryLoop samplePutter sampleRequest 0 partialFailureResponse.RequestResponses
      "s".toList [] = none :=
  ⟨(retryLoop_fault_conditions samplePutter fiveRecordRequest
      twoOfFiveResponse.RequestResponses "s".toList).1 (by decide) (by decide),
    (retryLoop_fault_conditions samplePutter sampleRequest
      partialFailureResponse.RequestResponses "s".toList).2.1
      ⟨⟨none, none, some "id-0".toList⟩, by decide, rfl⟩⟩
